import Mathlib

/-!
Verification development for the superagente86 newsletter pipeline
(src/superagente86). The analysis agent (analysis_agent.py) and the
delivery agent's item ordering (delivery_agent.py) are shallowly embedded
below: Python strings become `List Char`, the concrete regular expressions
used by the code are compiled by hand into executable scanners, and the
stateful deduplication loop becomes explicit state passing.

Conventions:
- every `pySub`-based pass mirrors one `re.sub(pattern, repl, text)` call:
  the matcher returns the length of the leftmost match starting at the
  given suffix (Python scans positions left to right and replaces
  non-overlapping matches); all patterns used by the code only match
  nonempty text, so a returned length of 0 encodes "no match";
- character classes `\s`, `\w`, `\d` and the lowercasing in the source are
  modelled over their ASCII meaning, which agrees with Python on every
  string considered in the theorems below;
- Python's `sorted`/`list.sort` are stable sorts by a key; they are
  embedded as a stable insertion sort `pySortBy` (extensionally equal to
  any stable sort by the same key).
-/

namespace SA86

/-- Python `\s` (ASCII part): space, tab, newline, carriage return,
vertical tab, form feed. -/
def isPySpace (c : Char) : Bool :=
  c = ' ' || c = '\t' || c = '\n' || c = '\r' ||
  c = Char.ofNat 0x0b || c = Char.ofNat 0x0c

/-- Python `\w` (ASCII part): letters, digits, underscore. -/
def isPyWord (c : Char) : Bool :=
  c.isAlpha || c.isDigit || c = '_'

/-- Lowercasing as done by Python `str.lower()` (ASCII part). -/
def pyLower (c : Char) : Char := c.toLower

/-- Case-insensitive character comparison, as under `re.IGNORECASE`. -/
def lowEq (a b : Char) : Bool := pyLower a = pyLower b

/-- Exact prefix test: does `s` start with `pat`? -/
def leadsWith : List Char → List Char → Bool
  | [], _ => true
  | _ :: _, [] => false
  | p :: ps, c :: cs => p = c && leadsWith ps cs

/-- Case-insensitive prefix test. -/
def leadsWithCI : List Char → List Char → Bool
  | [], _ => true
  | _ :: _, [] => false
  | p :: ps, c :: cs => lowEq p c && leadsWithCI ps cs

/-- Exact substring test (Python `pat in s`). -/
def containsSub (pat : List Char) : List Char → Bool
  | [] => leadsWith pat []
  | c :: cs => leadsWith pat (c :: cs) || containsSub pat cs

/-- Case-insensitive substring test. -/
def containsSubCI (pat : List Char) : List Char → Bool
  | [] => leadsWithCI pat []
  | c :: cs => leadsWithCI pat (c :: cs) || containsSubCI pat cs

/-- Removal of a trailing run of characters satisfying `p`. -/
def dropTrailWhile (p : α → Bool) (l : List α) : List α :=
  (l.reverse.dropWhile p).reverse

/-- Python `str.strip()`: remove leading and trailing whitespace. -/
def pyStrip (s : List Char) : List Char :=
  dropTrailWhile isPySpace (s.dropWhile isPySpace)

theorem dropWhile_len_le (p : α → Bool) (l : List α) :
    (l.dropWhile p).length ≤ l.length := by
  induction l with
  | nil => simp
  | cons c cs ih =>
    rw [List.dropWhile_cons]
    split
    · exact ih.trans (by simp)
    · simp

/-- Structural worker of `pySplitWs`; the fuel is an upper bound on the
list length, and every recursive call strictly shrinks the list, so the
zero-fuel branch is unreachable from `pySplitWs`. -/
def pySplitWsF : Nat → List Char → List (List Char)
  | _, [] => []
  | 0, _ :: _ => []
  | fuel + 1, c :: cs =>
    if isPySpace c then pySplitWsF fuel cs
    else
      (c :: cs).takeWhile (fun x => ¬ isPySpace x) ::
        pySplitWsF fuel (cs.dropWhile (fun x => ¬ isPySpace x))

/-- Python `str.split()` with no argument: split on whitespace runs,
discarding empty pieces. -/
def pySplitWs (s : List Char) : List (List Char) :=
  pySplitWsF s.length s

/-- Structural worker of `pySub`; the fuel is an upper bound on the list
length, and every step consumes at least one character, so the zero-fuel
branch is unreachable from `pySub`. -/
def pySubF (m : List Char → Nat) (repl : List Char) : Nat → List Char → List Char
  | _, [] => []
  | 0, s => s
  | fuel + 1, c :: cs =>
    match m (c :: cs) with
    | 0 => c :: pySubF m repl fuel cs
    | n + 1 => repl ++ pySubF m repl fuel (cs.drop n)

/-- Generic engine for one `re.sub(pattern, repl, text)` pass: `m s`
returns the length of the match of `pattern` at the start of `s`
(`0` = no match; every pattern below only matches nonempty text).
Scans left to right, replacing non-overlapping matches, exactly like
Python `re.sub`. -/
def pySub (m : List Char → Nat) (repl : List Char) (s : List Char) : List Char :=
  pySubF m repl s.length s

/-- Length of the run of characters satisfying `p` at the head of `s`. -/
def runLen (p : Char → Bool) (s : List Char) : Nat :=
  (s.takeWhile p).length

/-! Matchers for the concrete regular expressions of
`AnalysisAgent._clean_text` (analysis_agent.py lines 348-390). Each
matcher returns the length of the match at the start of the suffix, `0`
meaning no match; none of these patterns can match empty text. -/

/-- Tail `[^.]*\.?`: everything up to the first period, plus the
period itself when present (both parts greedy). -/
def dotTail (s : List Char) : Nat :=
  let b := runLen (fun c => c ≠ '.') s
  match s.drop b with
  | [] => b
  | _ :: _ => b + 1

/-- Pattern `LIT[^.]*\.?` under IGNORECASE, for a literal `LIT`. -/
def litDotMatch (lit : List Char) (s : List Char) : Nat :=
  if leadsWithCI lit s then lit.length + dotTail (s.drop lit.length) else 0

/-- Length of the first case-insensitive literal alternative matching at
the start of `s` (alternatives tried in order, as Python does), `0` if
none matches. -/
def firstLitCI (lits : List (List Char)) (s : List Char) : Nat :=
  match lits with
  | [] => 0
  | l :: ls => if leadsWithCI l s then l.length else firstLitCI ls s

/-- Zero-width characters removed by the first pass,
`[​‌‍⁠﻿]+`. -/
def isZeroWidth (c : Char) : Bool :=
  c = Char.ofNat 0x200b || c = Char.ofNat 0x200c || c = Char.ofNat 0x200d ||
  c = Char.ofNat 0x2060 || c = Char.ofNat 0xfeff

/-- Pattern `[​‌‍⁠﻿]+`. -/
def zwMatch (s : List Char) : Nat := runLen isZeroWidth s

/-- Scan for the lazy tail `.*?(?:Caption:|$)` with DOTALL: stop at the
first `Caption:` (consumed) or at `$` (end of text, or just before a
final newline). -/
def captionScan : List Char → Nat
  | [] => 0
  | c :: cs =>
    if leadsWithCI ("caption:".data) (c :: cs) then 8
    else if cs = [] && c = '\n' then 0
    else 1 + captionScan cs

/-- Pattern `View image:.*?(?:Caption:|$)` with IGNORECASE and DOTALL. -/
def viewImageMatch (s : List Char) : Nat :=
  if leadsWithCI ("view image:".data) s then 11 + captionScan (s.drop 11) else 0

/-- Pattern `Follow image link:.*?(?:\s|$)` with IGNORECASE: the lazy dot
run stops at the first whitespace (consumed, newline included since it is
whitespace) or at the end of the text. -/
def followImageMatch (s : List Char) : Nat :=
  if leadsWithCI ("follow image link:".data) s then
    let rest := s.drop 18
    let b := runLen (fun c => ¬ isPySpace c) rest
    18 + b + (match rest.drop b with | [] => 0 | _ :: _ => 1)
  else 0

/-- Pattern `\[image\]|\[img\]|\(image\)|Image:` with IGNORECASE. -/
def imgPlaceholderMatch (s : List Char) : Nat :=
  firstLitCI [("[image]".data), ("[img]".data), ("(image)".data), ("image:".data)] s

/-- Pattern `Welcome,? \w+[^.]*\.?` with IGNORECASE: `welcome`, an
optional comma, one space, at least one word character, then the
`[^.]*\.?` tail. -/
def welcomeNameMatch (s : List Char) : Nat :=
  if leadsWithCI ("welcome".data) s then
    let r1 := s.drop 7
    let k : Nat := match r1 with | ',' :: _ => 1 | _ => 0
    match r1.drop k with
    | ' ' :: d :: r4 => if isPyWord d then 7 + k + 2 + dotTail r4 else 0
    | _ => 0
  else 0

/-- Pattern `Happy \w+day[^.]*\.?` with IGNORECASE: `happy `, then a word
run that contains `day` at offset at least 1 (the `\w+` needs one
character before the literal `day`), then the `[^.]*\.?` tail, which
together with the word run reaches the first period. -/
def happyDayMatch (s : List Char) : Nat :=
  if leadsWithCI ("happy ".data) s then
    let rest := s.drop 6
    let w := rest.takeWhile isPyWord
    if containsSubCI ("day".data) (w.drop 1) then 6 + dotTail rest else 0
  else 0

/-- Pattern `Good (?:morning|afternoon|evening)[^.]*\.?` with IGNORECASE. -/
def goodTimeMatch (s : List Char) : Nat :=
  if leadsWithCI ("good ".data) s then
    let rest := s.drop 5
    let n := firstLitCI [("morning".data), ("afternoon".data), ("evening".data)] rest
    if n = 0 then 0 else 5 + n + dotTail (rest.drop n)
  else 0

/-- Suffix ` (?:what|today)[^.]*\.?` of the `Here'?s? ...` pattern. -/
def hereTail (t : List Char) : Option Nat :=
  match t with
  | ' ' :: u =>
    let n := firstLitCI [("what".data), ("today".data)] u
    if n = 0 then none else some (1 + n + dotTail (u.drop n))
  | _ => none

/-- Pattern `Here'?s? (?:what|today)[^.]*\.?` with IGNORECASE; the two
optional quantifiers backtrack greedily (with-apostrophe and with-s tried
first). -/
def hereWhatMatch (s : List Char) : Nat :=
  if leadsWithCI ("here".data) s then
    let r := s.drop 4
    let cand : Option Nat :=
      match r with
      | c :: t =>
        if c = Char.ofNat 39 then
          (match t with
           | d :: u => if lowEq 's' d then (hereTail u).map (· + 2) else none
           | [] => none) <|> (hereTail t).map (· + 1)
        else if lowEq 's' c then
          ((hereTail t).map (· + 1)) <|> hereTail r
        else hereTail r
      | [] => none
    match cand with
    | some n => 4 + n
    | none => 0
  else 0

/-- Pattern `In this (?:issue|edition|newsletter)[^.]*\.?` with
IGNORECASE. -/
def inThisMatch (s : List Char) : Nat :=
  if leadsWithCI ("in this ".data) s then
    let rest := s.drop 8
    let n := firstLitCI [("issue".data), ("edition".data), ("newsletter".data)] rest
    if n = 0 then 0 else 8 + n + dotTail (rest.drop n)
  else 0

/-- Pattern
`(?:Sign Up|Subscribe|Unsubscribe|Click here|Read more|View in browser|Advertise|Forward this|Refer a friend|Share this|Sponsor)[^.]*\.?`
with IGNORECASE. -/
def ctaMatch (s : List Char) : Nat :=
  let n := firstLitCI
    [("sign up".data), ("subscribe".data), ("unsubscribe".data),
     ("click here".data), ("read more".data), ("view in browser".data),
     ("advertise".data), ("forward this".data), ("refer a friend".data),
     ("share this".data), ("sponsor".data)] s
  if n = 0 then 0 else n + dotTail (s.drop n)

/-- Pattern `(?:Share|Tweet|Post|Like|Follow us|Join us)[^.]{0,30}` with
IGNORECASE: a literal followed by at most 30 non-period characters
(greedy). -/
def socialMatch (s : List Char) : Nat :=
  let n := firstLitCI
    [("share".data), ("tweet".data), ("post".data), ("like".data),
     ("follow us".data), ("join us".data)] s
  if n = 0 then 0 else n + min 30 (runLen (fun c => c ≠ '.') (s.drop n))

/-- Pattern `https?://\S*` (case-sensitive). -/
def urlMatch (s : List Char) : Nat :=
  if leadsWith ("https://".data) s then
    8 + runLen (fun c => ¬ isPySpace c) (s.drop 8)
  else if leadsWith ("http://".data) s then
    7 + runLen (fun c => ¬ isPySpace c) (s.drop 7)
  else 0

/-- Pattern `www\.\S*` (case-sensitive). -/
def wwwMatch (s : List Char) : Nat :=
  if leadsWith ("www.".data) s then
    4 + runLen (fun c => ¬ isPySpace c) (s.drop 4)
  else 0

/-- Core `\s*Caption:\s*\)?` of the caption-removal pattern. -/
def captionCore (t : List Char) : Option Nat :=
  let a := runLen isPySpace t
  let t1 := t.drop a
  if leadsWithCI ("caption:".data) t1 then
    let b := runLen isPySpace (t1.drop 8)
    some (a + 8 + b + (match (t1.drop 8).drop b with | ')' :: _ => 1 | _ => 0))
  else none

/-- Pattern `\(?\s*Caption:\s*\)?` with IGNORECASE. -/
def captionMatch (s : List Char) : Nat :=
  match s with
  | '(' :: t => (match captionCore t with | some n => 1 + n | none => 0)
  | _ => (match captionCore s with | some n => n | none => 0)

/-- Step helper `\s*LIT` used by the pipe-separated footer patterns. -/
def eatWsThenCI (lit : List Char) (t : List Char) : Option Nat :=
  let a := runLen isPySpace t
  if leadsWithCI lit (t.drop a) then some (a + lit.length) else none

/-- Pattern `Refer\s*\|\s*Tldr\s*\|\s*Advertise` with IGNORECASE. -/
def referTldrMatch (s : List Char) : Nat :=
  if leadsWithCI ("refer".data) s then
    match eatWsThenCI (['|']) (s.drop 5) with
    | none => 0
    | some a =>
      match eatWsThenCI ("tldr".data) (s.drop (5 + a)) with
      | none => 0
      | some b =>
        match eatWsThenCI (['|']) (s.drop (5 + a + b)) with
        | none => 0
        | some c =>
          match eatWsThenCI ("advertise".data) (s.drop (5 + a + b + c)) with
          | none => 0
          | some d => 5 + a + b + c + d
  else 0

/-- Pattern `\|\s*Advertise` with IGNORECASE. -/
def pipeAdvertiseMatch (s : List Char) : Nat :=
  match s with
  | '|' :: t =>
    (match eatWsThenCI ("advertise".data) t with
     | some n => 1 + n
     | none => 0)
  | _ => 0

/-- Bullet characters of `[•‣▪▫●○]{2,}`. -/
def isBullet (c : Char) : Bool :=
  c = Char.ofNat 0x2022 || c = Char.ofNat 0x2023 || c = Char.ofNat 0x25aa ||
  c = Char.ofNat 0x25ab || c = Char.ofNat 0x25cf || c = Char.ofNat 0x25cb

/-- Pattern `[•‣▪▫●○]{2,}`. -/
def bulletsMatch (s : List Char) : Nat :=
  let n := runLen isBullet s
  if n ≥ 2 then n else 0

/-- Pattern `[\r\n\t]+`. -/
def crlfTabMatch (s : List Char) : Nat :=
  runLen (fun c => c = '\r' || c = '\n' || c = '\t') s

/-- Pattern `\s+`. -/
def wsMatch (s : List Char) : Nat := runLen isPySpace s

/-- Pattern `\s[|:;,]+\s`. -/
def wsPunctWsMatch (s : List Char) : Nat :=
  match s with
  | w :: rest =>
    if isPySpace w then
      let k := runLen (fun c => c = '|' || c = ':' || c = ';' || c = ',') rest
      if k = 0 then 0
      else
        match rest.drop k with
        | v :: _ => if isPySpace v then 1 + k + 1 else 0
        | [] => 0
    else 0
  | [] => 0

/-- Pattern `\(\s*\)`. -/
def emptyParenMatch (s : List Char) : Nat :=
  match s with
  | '(' :: t =>
    let a := runLen isPySpace t
    (match t.drop a with | ')' :: _ => 1 + a + 1 | _ => 0)
  | _ => 0

/-- Pattern `\[\s*\]`. -/
def emptyBracketMatch (s : List Char) : Nat :=
  match s with
  | '[' :: t =>
    let a := runLen isPySpace t
    (match t.drop a with | ']' :: _ => 1 + a + 1 | _ => 0)
  | _ => 0

/-- Embedding of `AnalysisAgent._clean_text`: the chain of `re.sub`
passes of analysis_agent.py lines 348-390, in source order, followed by
`str.strip()`. -/
def cleanText (s : List Char) : List Char :=
  let t1 := pySub zwMatch [] s
  let t2 := pySub viewImageMatch [] t1
  let t3 := pySub followImageMatch [] t2
  let t4 := pySub imgPlaceholderMatch [] t3
  let t5 := pySub (litDotMatch ("welcome back".data)) [] t4
  let t6 := pySub welcomeNameMatch [] t5
  let t7 := pySub happyDayMatch [] t6
  let t8 := pySub goodTimeMatch [] t7
  let t9 := pySub (litDotMatch ("hi there".data)) [] t8
  let t10 := pySub (litDotMatch ("hello".data)) [] t9
  let t11 := pySub (litDotMatch ("hey".data)) [] t10
  let t12 := pySub hereWhatMatch [] t11
  let t13 := pySub inThisMatch [] t12
  let t14 := pySub (litDotMatch ("today we".data)) [] t13
  let t15 := pySub (litDotMatch ("this week".data)) [] t14
  let t16 := pySub ctaMatch [] t15
  let t17 := pySub socialMatch [] t16
  let t18 := pySub urlMatch [] t17
  let t19 := pySub wwwMatch [] t18
  let t20 := pySub captionMatch [] t19
  let t21 := pySub referTldrMatch [] t20
  let t22 := pySub pipeAdvertiseMatch [] t21
  let t23 := pySub bulletsMatch [] t22
  let t24 := pySub crlfTabMatch ([' ']) t23
  let t25 := pySub wsMatch ([' ']) t24
  let t26 := pySub wsPunctWsMatch ([' ']) t25
  let t27 := pySub emptyParenMatch [] t26
  let t28 := pySub emptyBracketMatch [] t27
  pyStrip t28

/-! Data model (gmail_agent.py `GmailMessage`, analysis_agent.py
`ReportSource`, `ReportItem`, `Report`). Timestamps are modelled as `Int`
(comparison is all the code uses them for). -/

/-- Embedding of `GmailMessage` (gmail_agent.py lines 19-29). -/
structure GmailMessage where
  messageId : String
  subject : String
  sender : String
  receivedAt : Int
  snippet : String
  bodyText : String
  bodyHtml : String
  link : String
  links : List String
deriving Repr, DecidableEq

/-- Embedding of `ReportSource` (analysis_agent.py lines 11-21). -/
structure ReportSource where
  sender : String
  receivedAt : Int
  emailLink : String
  extractedLinks : List String
  summary : String
  promptOfDay : Option String := none
  videoLinks : List String := []
  appMentions : List String := []
  companyNews : List String := []
deriving Repr, DecidableEq

/-- Embedding of `ReportItem` (analysis_agent.py lines 24-34). -/
structure ReportItem where
  topic : String
  tags : List String
  priority : String
  summary : String
  sources : List ReportSource
  category : String := "general"
  hasPrompt : Bool := false
  hasVideo : Bool := false
  hasCompanyNews : Bool := false
deriving Repr, DecidableEq

/-- Embedding of `Report` (analysis_agent.py lines 80-85); `generatedAt`
is the wall-clock timestamp, injected as a parameter of `analyze`. -/
structure Report where
  generatedAt : Int
  executiveSummaryEs : String
  executiveSummaryEn : String
  items : List ReportItem
deriving Repr, DecidableEq

/-! Category tables (`CATEGORIES`, analysis_agent.py lines 38-77). -/

/-- Keyword table of `CATEGORIES[cat]["keywords"]`. -/
def catKeywords : String → List String
  | "new_models" =>
    ["gpt-5", "gpt-4", "claude", "gemini", "llama", "mistral", "model release",
     "new model", "launches", "released", "announced", "upgrade", "version",
     "multimodal", "foundation model", "weights", "open source", "fine-tun"]
  | "research" =>
    ["paper", "arxiv", "research", "study", "breakthrough", "discovered",
     "technique", "algorithm", "benchmark", "state-of-the-art", "sota",
     "training", "inference", "reasoning", "evaluation", "dataset"]
  | "robots" =>
    ["robot", "humanoid", "boston dynamics", "figure", "optimus", "tesla bot",
     "autonomous", "embodied", "manipulation", "locomotion", "actuator",
     "warehouse", "industrial robot", "cobot"]
  | "funding" =>
    ["raised", "funding", "series", "valuation", "acquisition", "acquired",
     "ipo", "merger", "billion", "million", "investor", "venture", "startup"]
  | "apps" =>
    ["app", "tool", "plugin", "extension", "api", "sdk", "platform",
     "saas", "product", "feature", "integration", "workflow", "automation"]
  | _ => []

/-- Spanish display name table `CATEGORIES[cat]["name_es"]`. -/
def catNameEs : String → String
  | "new_models" => "🚀 NUEVOS MODELOS"
  | "research" => "🔬 RESEARCH"
  | "robots" => "🤖 ROBOTS"
  | "funding" => "💰 FUNDING & EMPRESAS"
  | "apps" => "🛠️ APPS & TOOLS"
  | _ => "📰 GENERAL"

/-- English display name table `CATEGORIES[cat]["name_en"]`. -/
def catNameEn : String → String
  | "new_models" => "New Models"
  | "research" => "Research"
  | "robots" => "Robots"
  | "funding" => "Funding & Companies"
  | "apps" => "Apps & Tools"
  | _ => "General"

/-- Insertion order of the non-general categories in `CATEGORIES`, which
is the iteration order of `_classify_category` and the tie-break
precedence of Python `max`. -/
def nonGeneralOrder : List String :=
  ["new_models", "research", "robots", "funding", "apps"]

/-- Score of one category: the number of its keywords occurring in the
lowercased text (`sum(1 for kw in keywords if kw in text_lower)`,
analysis_agent.py line 207). -/
def catScore (textLower : List Char) (c : String) : Nat :=
  (catKeywords c).countP (fun kw => containsSub kw.data textLower)

/-- Python `max(iterable, key=...)` over score pairs: keeps the first
element whose value is maximal (a later element replaces the current best
only when strictly greater). -/
def pyMaxBy : (String × Nat) → List (String × Nat) → (String × Nat)
  | best, [] => best
  | best, p :: rest => pyMaxBy (if p.2 > best.2 then p else best) rest

/-- Embedding of `AnalysisAgent._classify_category`
(analysis_agent.py lines 199-215). -/
def classifyCategory (text : List Char) : String :=
  let textLower := text.map pyLower
  let scores := (nonGeneralOrder.map (fun c => (c, catScore textLower c))).filter
    (fun p => p.2 > 0)
  match scores with
  | [] => "general"
  | s :: rest => (pyMaxBy s rest).1

/-- Python `sep.join(pieces)`. -/
def pyJoin (sep : List Char) : List (List Char) → List Char
  | [] => []
  | [x] => x
  | x :: y :: rest => x ++ sep ++ pyJoin sep (y :: rest)

/-- Embedding of `AnalysisAgent._extract_tags`
(analysis_agent.py lines 244-257): tags are appended in source order
(ai, product, funding), with a trailing `general` when none applies. -/
def extractTags (messages : List GmailMessage) : List String :=
  let text := (pyJoin ([' '])
    (messages.map (fun m => m.subject.data ++ (' ' :: m.snippet.data)))).map pyLower
  let tags :=
    (if containsSub ("ai".data) text || containsSub ("ml".data) text then ["ai"] else []) ++
    (if containsSub ("product".data) text then ["product"] else []) ++
    (if containsSub ("funding".data) text || containsSub ("series".data) text
      then ["funding"] else [])
  if tags = [] then ["general"] else tags

/-- Embedding of `AnalysisAgent._score_priority`
(analysis_agent.py lines 259-266). -/
def scorePriority (tags : List String) (hasCompanyNews : Bool) (category : String) :
    String :=
  if tags.contains ("funding") || hasCompanyNews ||
      category = "funding" || category = "new_models" then "high"
  else if tags.contains ("ai") || tags.contains ("company") ||
      category = "research" || category = "robots" then "medium"
  else "low"

/-! Summarizer (`AnalysisAgent._summarize`, analysis_agent.py
lines 268-337). -/

/-- News keyword set of `_summarize` (a Python set literal; only
membership is ever used, so a list is an adequate embedding). -/
def newsKeywords : List String :=
  ["announced", "launched", "released", "raised", "acquired", "partnership",
   "billion", "million", "percent", "growth", "revenue", "users",
   "new", "first", "largest", "update", "version", "model", "feature",
   "company", "startup", "ceo", "founder", "team", "employees"]

/-- Scan helper for `re.split` with pattern `(?<=[.!?])\s+`: returns the
piece before the first split point and, when a split point exists, the
remaining text after the whitespace run. -/
def sentCut (prev : Char) : List Char → List Char × Option (List Char)
  | [] => ([], none)
  | c :: cs =>
    if isPySpace c && (prev = '.' || prev = '!' || prev = '?') then
      ([], some (cs.dropWhile isPySpace))
    else
      let pr := sentCut c cs
      (c :: pr.1, pr.2)

/-- Structural worker of `splitSentences`; the fuel bounds the list
length, and `sentCut` strictly shrinks the remainder, so the zero-fuel
branch is unreachable from `splitSentences`. -/
def splitSentencesF : Nat → List Char → List (List Char)
  | 0, s => [s]
  | fuel + 1, s =>
    match sentCut 'a' s with
    | (p, none) => [p]
    | (p, some r) => p :: splitSentencesF fuel r

/-- Embedding of `re.split(r'(?<=[.!?])\s+', text)`: split at whitespace
runs preceded by sentence-ending punctuation. -/
def splitSentences (s : List Char) : List (List Char) :=
  splitSentencesF (s.length + 1) s

/-- Count of distinct elements of `a` (assumed deduplicated) also present
in `b` (Python `len(a & b)` on sets). -/
def interCount {α : Type} [DecidableEq α] (a b : List α) : Nat :=
  (a.filter (fun w => b.contains w)).length

/-- Word set of a sentence, Python `set(s.split())` (deduplicated;
iteration order of the Python set is irrelevant to every use). -/
def wordSet (s : List Char) : List (List Char) :=
  (pySplitWs s).dedup

/-- Stable insertion step of `pySortBy`: `stay y x` decides that an
already-placed `y` stays in front of the element `x` being inserted (for
Python stable sorting, strict comparison of the keys). -/
def pyInsert (stay : α → α → Bool) (x : α) : List α → List α
  | [] => [x]
  | y :: ys => if stay y x then y :: pyInsert stay x ys else x :: y :: ys

/-- Stable sort used to embed Python `sorted`/`list.sort` with a key:
`stay y x` is strict precedence of `y` over `x` (key of `y` strictly
smaller for ascending order, strictly larger for descending order). Any
stable sort by the same key is extensionally equal, so this embeds
Timsort faithfully. -/
def pySortBy (stay : α → α → Bool) : List α → List α
  | [] => []
  | x :: xs => pyInsert stay x (pySortBy stay xs)

/-- State of the sentence-scoring loop of `_summarize` (lines 283-314):
already-selected word sets (`seen_content`) and scored sentences. -/
def rateSentences (sentences : List (List Char)) : List (Int × List Char) :=
  go sentences [] []
where
  go : List (List Char) → List (List (List Char)) → List (Int × List Char) →
      List (Int × List Char)
  | [], _, scored => scored
  | s :: rest, seen, scored =>
    let s' := pyStrip s
    if s'.length < 20 || s'.length > 300 then go rest seen scored
    else
      let sLower := s'.map pyLower
      let sWords := wordSet sLower
      if seen.any (fun sn => 2 * interCount sWords sn > sWords.length) then
        go rest seen scored
      else
        let score : Int :=
          (newsKeywords.countP (fun kw => containsSub kw.data sLower) : Int) +
          (if s'.any (fun c => c.isDigit) then 1 else 0) -
          (if (["click", "subscribe", "join", "free", "discount"] :
                List String).any (fun w => containsSub w.data sLower) then 2 else 0)
        if score > 0 then go rest (seen ++ [sWords]) (scored ++ [(score, s')])
        else go rest seen scored

/-- Greeting words rejected by the fallback branch of `_summarize`
(line 326). -/
def greetWords : List String := ["welcome", "hello", "hi ", "hey "]

/-- Word limit of `_summarize` (line 334): 45 words for high priority,
30 otherwise. -/
def maxWordsFor (priority : String) : Nat :=
  if priority = "high" then 45 else 30

/-- Final word-count truncation of `_summarize` (lines 332-337), with the
"(sin resumen)" fallback for an empty result. -/
def summarizeFinish (result : List Char) (priority : String) : String :=
  if (pySplitWs result).length > maxWordsFor priority then
    String.mk (pyJoin ([' ']) ((pySplitWs result).take (maxWordsFor priority)) ++
      ("...".data))
  else if result = [] then "(sin resumen)" else String.mk result

/-- Embedding of `AnalysisAgent._summarize` applied to already-selected
input text (analysis_agent.py lines 268-337); `text0` is
`message.body_text.strip() if message.body_text else message.snippet`. -/
def summarizeText (text0 : List Char) (priority : String) : String :=
  let text := cleanText text0
  let sentences := splitSentences text
  let scored := rateSentences sentences
  let sortedScored := pySortBy (fun a b => a.1 > b.1) scored
  let best := (sortedScored.take 2).map (fun p => p.2)
  let result :=
    if best ≠ [] then pyJoin ([' ']) best
    else
      match sentences.find? (fun s =>
          let s' := pyStrip s
          s'.length > 30 &&
          ¬ greetWords.any (fun w => containsSub w.data (s'.map pyLower))) with
      | some s => pyStrip s
      | none => if text.length > 150 then text.take 150 ++ ("...".data) else text
  summarizeFinish result priority

/-- Embedding of `AnalysisAgent._summarize` (text selection of
line 269 plus `summarizeText`). -/
def summarize (message : GmailMessage) (priority : String) : String :=
  summarizeText
    (if message.bodyText ≠ "" then pyStrip message.bodyText.data
     else message.snippet.data) priority

/-- Embedding of `AnalysisAgent._summarize_source`
(analysis_agent.py lines 339-346). -/
def summarizeSource (message : GmailMessage) : String :=
  let text := cleanText message.snippet.data
  let words := pySplitWs text
  if words.length > 25 then
    String.mk (pyJoin ([' ']) (words.take 25) ++ ("...".data))
  else if text = [] then "(sin extracto)" else String.mk text

/-! Prompt extraction (`AnalysisAgent._extract_prompt`,
analysis_agent.py lines 392-403): four `re.search` patterns with
IGNORECASE, tried in order. -/

/-- Greedy run of a character class followed by the capture group
`([^\n]{10,500})`: the class run backtracks from its maximal length until
at least 10 non-newline characters remain for the (greedy, at most 500
character) group. -/
def classGroupAux (t : List Char) : Nat → Option (List Char)
  | 0 =>
    let r := runLen (fun c => c ≠ '\n') t
    if 10 ≤ r then some (t.take (min 500 r)) else none
  | k + 1 =>
    let u := t.drop (k + 1)
    let r := runLen (fun c => c ≠ '\n') u
    if 10 ≤ r then some (u.take (min 500 r)) else classGroupAux t k

/-- Pattern tail `[:\s]*([^\n]{10,500})`. -/
def colonWsGroup (t : List Char) : Option (List Char) :=
  classGroupAux t (runLen (fun c => c = ':' || isPySpace c) t)

/-- Pattern tail `\s*([^\n]{10,500})` (for `prompt:\s*(...)`). -/
def wsGroup (t : List Char) : Option (List Char) :=
  classGroupAux t (runLen isPySpace t)

/-- Match of `prompt\s*(?:of\s*the\s*)?day[:\s]*([^\n]{10,500})` at the
start of `s` (with-optional tried before without, like the greedy `?`). -/
def promptDayAt (s : List Char) : Option (List Char) :=
  if leadsWithCI ("prompt".data) s then
    let t := s.drop (6 + runLen isPySpace (s.drop 6))
    let withOf : Option (List Char) :=
      if leadsWithCI ("of".data) t then
        let u := t.drop (2 + runLen isPySpace (t.drop 2))
        if leadsWithCI ("the".data) u then
          let v := u.drop (3 + runLen isPySpace (u.drop 3))
          if leadsWithCI ("day".data) v then colonWsGroup (v.drop 3) else none
        else none
      else none
    withOf <|> (if leadsWithCI ("day".data) t then colonWsGroup (t.drop 3) else none)
  else none

/-- Match of `daily\s*prompt[:\s]*([^\n]{10,500})` at the start of `s`. -/
def dailyPromptAt (s : List Char) : Option (List Char) :=
  if leadsWithCI ("daily".data) s then
    let t := s.drop (5 + runLen isPySpace (s.drop 5))
    if leadsWithCI ("prompt".data) t then colonWsGroup (t.drop 6) else none
  else none

/-- Tail `\s*prompt[:\s]*([^\n]{10,500})` of the `today'?s?` pattern. -/
def todaysTail (t : List Char) : Option (List Char) :=
  let u := t.drop (runLen isPySpace t)
  if leadsWithCI ("prompt".data) u then colonWsGroup (u.drop 6) else none

/-- Match of `today'?s?\s*prompt[:\s]*([^\n]{10,500})` at the start of
`s`; the two optional quantifiers backtrack greedily. -/
def todaysPromptAt (s : List Char) : Option (List Char) :=
  if leadsWithCI ("today".data) s then
    let r := s.drop 5
    match r with
    | c :: t =>
      if c = Char.ofNat 39 then
        (match t with
         | d :: u => if lowEq 's' d then todaysTail u else none
         | [] => none) <|> todaysTail t
      else if lowEq 's' c then todaysTail t <|> todaysTail r
      else todaysTail r
    | [] => todaysTail r
  else none

/-- Match of `prompt:\s*([^\n]{10,500})` at the start of `s`. -/
def promptColonAt (s : List Char) : Option (List Char) :=
  if leadsWithCI ("prompt:".data) s then wsGroup (s.drop 7) else none

/-- Python `re.search`: try the position matcher at every suffix, left to
right. -/
def searchFirst (f : List Char → Option α) : List Char → Option α
  | [] => f []
  | c :: cs =>
    match f (c :: cs) with
    | some r => some r
    | none => searchFirst f cs

/-- Embedding of `AnalysisAgent._extract_prompt`
(analysis_agent.py lines 392-403). -/
def extractPrompt (text : List Char) : Option String :=
  match searchFirst promptDayAt text with
  | some g => some (String.mk (pyStrip g))
  | none =>
    match searchFirst dailyPromptAt text with
    | some g => some (String.mk (pyStrip g))
    | none =>
      match searchFirst todaysPromptAt text with
      | some g => some (String.mk (pyStrip g))
      | none =>
        match searchFirst promptColonAt text with
        | some g => some (String.mk (pyStrip g))
        | none => none

/-- Embedding of `AnalysisAgent._extract_video_links`
(analysis_agent.py lines 405-407). -/
def extractVideoLinks (links : List String) : List String :=
  links.filter (fun l =>
    (["youtube.com", "youtu.be", "vimeo.com", "loom.com", "wistia.com"] :
      List String).any (fun d => containsSub d.data (l.data.map pyLower)))

/-! App-mention extraction (`AnalysisAgent._extract_app_mentions`,
analysis_agent.py lines 409-422): two `re.findall` patterns with
IGNORECASE (so `[A-Z]` matches any ASCII letter). In each alternation at
most one alternative can match at a given position, so no backtracking
across alternatives is needed. -/

/-- Capture group `[A-Z][a-zA-Z0-9]{2,}(?:\s+[A-Z][a-zA-Z0-9]+)?` under
IGNORECASE: returns its match length. -/
def appGroupAt (t : List Char) : Option Nat :=
  match t with
  | c0 :: rest =>
    if c0.isAlpha then
      let n := runLen (fun c => c.isAlphanum) rest
      if n ≥ 2 then
        let u := t.drop (1 + n)
        let b := runLen isPySpace u
        let opt : Nat :=
          if b ≥ 1 then
            match u.drop b with
            | d :: v =>
              if d.isAlpha then
                let m := runLen (fun c => c.isAlphanum) v
                if m ≥ 1 then b + 1 + m else 0
              else 0
            | [] => 0
          else 0
        some (1 + n + opt)
      else none
    else none
  | [] => none

/-- Capture group `[A-Z][a-zA-Z0-9]{2,}(?:\s+[A-Z0-9]+)?` under
IGNORECASE. -/
def appGroup2At (t : List Char) : Option Nat :=
  match t with
  | c0 :: rest =>
    if c0.isAlpha then
      let n := runLen (fun c => c.isAlphanum) rest
      if n ≥ 2 then
        let u := t.drop (1 + n)
        let b := runLen isPySpace u
        let opt : Nat :=
          if b ≥ 1 then
            let m := runLen (fun c => c.isAlphanum) (u.drop b)
            if m ≥ 1 then b + m else 0
          else 0
        some (1 + n + opt)
      else none
    else none
  | [] => none

/-- Match of `(?:try|check out|download|use|introducing)\s+(GROUP)` at the
start of `s`: returns total match length and the group text. -/
def appPat1At (s : List Char) : Option (Nat × List Char) :=
  let lit := firstLitCI
    [("try".data), ("check out".data), ("download".data), ("use".data),
     ("introducing".data)] s
  if lit = 0 then none
  else
    let a := runLen isPySpace (s.drop lit)
    if a = 0 then none
    else
      match appGroupAt (s.drop (lit + a)) with
      | some g => some (lit + a + g, (s.drop (lit + a)).take g)
      | none => none

/-- Match of `(?:new app|new tool)[:\s]+(GROUP2)` at the start of `s`. -/
def appPat2At (s : List Char) : Option (Nat × List Char) :=
  let lit := firstLitCI [("new app".data), ("new tool".data)] s
  if lit = 0 then none
  else
    let a := runLen (fun c => c = ':' || isPySpace c) (s.drop lit)
    if a = 0 then none
    else
      match appGroup2At (s.drop (lit + a)) with
      | some g => some (lit + a + g, (s.drop (lit + a)).take g)
      | none => none

/-- Structural worker of `findAllGroups`; the fuel bounds the list
length, so the zero-fuel branch is unreachable from `findAllGroups`. -/
def findAllGroupsF (pat : List Char → Option (Nat × List Char)) :
    Nat → List Char → List (List Char)
  | _, [] => []
  | 0, _ :: _ => []
  | fuel + 1, c :: cs =>
    match pat (c :: cs) with
    | some (n + 1, g) => g :: findAllGroupsF pat fuel (cs.drop n)
    | _ => findAllGroupsF pat fuel cs

/-- Python `re.findall` with one capture group: scans left to right,
collecting the group of each non-overlapping match and resuming after the
match end. -/
def findAllGroups (pat : List Char → Option (Nat × List Char))
    (s : List Char) : List (List Char) :=
  findAllGroupsF pat s.length s

/-- Embedding of `AnalysisAgent._extract_app_mentions`
(analysis_agent.py lines 409-422). Python's final `list(set(apps))[:3]`
has unspecified (hash-dependent) order; it is embedded as first-occurrence
deduplication, an order consistent with set semantics. -/
def extractAppMentions (text : List Char) : List String :=
  let ms := findAllGroups appPat1At text ++ findAllGroups appPat2At text
  let apps := (ms.map (fun m => pyStrip m)).filter (fun cleaned =>
    cleaned.length > 2 &&
    ¬ (["the", "and", "for", "with", "this", "that", "your", "our", "his", "her"] :
        List String).contains (String.mk (cleaned.map pyLower)))
  ((apps.map String.mk).eraseDups).take 3

/-! Company-news extraction (`AnalysisAgent._extract_company_news`,
analysis_agent.py lines 424-437). -/

/-- Match of the company-action pattern
`((?:OpenAI|...|Cohere)\s+(?:announced|...|releases)[^.]{5,80})` at the
start of `s`: returns total length and group (the whole match). -/
def companyPat1At (s : List Char) : Option (Nat × List Char) :=
  let c := firstLitCI
    [("openai".data), ("google".data), ("microsoft".data), ("meta".data),
     ("apple".data), ("amazon".data), ("anthropic".data), ("nvidia".data),
     ("tesla".data), ("xai".data), ("mistral".data), ("cohere".data)] s
  if c = 0 then none
  else
    let a := runLen isPySpace (s.drop c)
    if a = 0 then none
    else
      let v := firstLitCI
        [("announced".data), ("launches".data), ("raised".data),
         ("acquired".data), ("partners".data), ("releases".data)] (s.drop (c + a))
      if v = 0 then none
      else
        let rest := s.drop (c + a + v)
        let r := runLen (fun ch => ch ≠ '.') rest
        if r ≥ 5 then
          let n := c + a + v + min 80 r
          some (n, s.take n)
        else none

/-- Tail `[MBK]?\s+(?:funding|raised|valuation)[^.]{5,50}` of the money
pattern (the optional `[MBK]` tried greedily). -/
def moneyTailAt (t : List Char) : Option Nat :=
  let core : List Char → Nat → Option Nat := fun u extra =>
    let a := runLen isPySpace u
    if a = 0 then none
    else
      let v := firstLitCI
        [("funding".data), ("raised".data), ("valuation".data)] (u.drop a)
      if v = 0 then none
      else
        let rest := u.drop (a + v)
        let r := runLen (fun ch => ch ≠ '.') rest
        if r ≥ 5 then some (extra + a + v + min 50 r) else none
  match t with
  | c :: u =>
    if lowEq 'm' c || lowEq 'b' c || lowEq 'k' c then
      (core u 1) <|> (core t 0)
    else core t 0
  | [] => none

/-- Backtracking of the greedy `[\d.]+` of the money pattern: from the
maximal run length down to 1. -/
def moneyAux (t : List Char) : Nat → Option Nat
  | 0 => none
  | k + 1 =>
    match moneyTailAt (t.drop (k + 1)) with
    | some n => some (k + 1 + n)
    | none => moneyAux t k

/-- Match of `(\$[\d.]+[MBK]?\s+(?:funding|raised|valuation)[^.]{5,50})`
at the start of `s`. -/
def companyPat2At (s : List Char) : Option (Nat × List Char) :=
  match s with
  | '$' :: t =>
    (match moneyAux t (runLen (fun c => c.isDigit || c = '.') t) with
     | some n => some (1 + n, s.take (1 + n))
     | none => none)
  | _ => none

/-- Embedding of `AnalysisAgent._extract_company_news`
(analysis_agent.py lines 424-437); the matched fragments are cleaned with
`_clean_text` and truncated to 100 characters, and short results are
dropped. Python's `list(set(news))[:3]` order is unspecified; embedded as
first-occurrence deduplication. -/
def extractCompanyNews (text : List Char) : List String :=
  let ms := findAllGroups companyPat1At text ++ findAllGroups companyPat2At text
  let news := (ms.map (fun m => cleanText m)).filterMap (fun cleaned =>
    if cleaned.length > 15 then some (String.mk (cleaned.take 100)) else none)
  news.eraseDups.take 3

/-- Embedding of `AnalysisAgent._build_source`
(analysis_agent.py lines 217-242). -/
def buildSource (message : GmailMessage) : ReportSource :=
  let text := if message.bodyText ≠ "" then message.bodyText.data
    else message.snippet.data
  let videoLinks := extractVideoLinks message.links
  { sender := message.sender
    receivedAt := message.receivedAt
    emailLink := message.link
    extractedLinks := message.links.filter (fun l => ¬ videoLinks.contains l)
    summary := summarizeSource message
    promptOfDay := extractPrompt text
    videoLinks := videoLinks
    appMentions := extractAppMentions text
    companyNews := extractCompanyNews text }

/-- Python truthiness of `s.prompt_of_day` (an `Optional[str]`): present
and nonempty. -/
def promptTruthy (s : ReportSource) : Bool :=
  match s.promptOfDay with
  | some p => p ≠ ""
  | none => false

/-- Default message, used only to keep `buildItem` total; every call site
passes a nonempty message list (topic groups are nonempty), matching
Python's `messages[0]`. -/
def defaultMsg : GmailMessage :=
  { messageId := "", subject := "", sender := "", receivedAt := 0,
    snippet := "", bodyText := "", bodyHtml := "", link := "", links := [] }

/-- Embedding of `AnalysisAgent._build_item`
(analysis_agent.py lines 162-197). Python's `list(set(tags))` order is
unspecified (hash-dependent); embedded as first-occurrence
deduplication. -/
def buildItem (topic : String) (messages : List GmailMessage) : ReportItem :=
  let tags0 := extractTags messages
  let sources := messages.map buildSource
  let hasPrompt := sources.any promptTruthy
  let hasVideo := sources.any (fun s => ¬ s.videoLinks.isEmpty)
  let hasCompanyNews := sources.any (fun s => ¬ s.companyNews.isEmpty)
  let tags := tags0 ++
    (if hasCompanyNews then ["company"] else []) ++
    (if hasPrompt then ["prompt"] else []) ++
    (if hasVideo then ["video"] else [])
  let combinedText := pyJoin ([' ']) (messages.map (fun m =>
    m.subject.data ++ (' ' :: (if m.bodyText ≠ "" then m.bodyText.data
      else m.snippet.data))))
  let category := classifyCategory combinedText
  let priority := scorePriority tags hasCompanyNews category
  let primary := messages.headD defaultMsg
  { topic := topic
    summary := summarize primary priority
    tags := tags.eraseDups
    priority := priority
    sources := sources
    category := category
    hasPrompt := hasPrompt
    hasVideo := hasVideo
    hasCompanyNews := hasCompanyNews }

/-! Deduplication (`AnalysisAgent._deduplicate_items`,
analysis_agent.py lines 106-144). The Python loop mutates
`seen_item.sources` in place, with `seen_topics` and `unique_items`
aliasing the same objects; the embedding stores kept items once in
`uniq` and lets `seen` map each significant-word key to the index of its
item in `uniq`. -/

/-- Stopword list of `_deduplicate_items` (lines 119-121). -/
def dedupStopwords : List String :=
  ["the", "a", "an", "and", "or", "of", "to", "in", "for", "is", "are",
   "ai", "news", "update", "daily", "weekly", "newsletter", "today",
   "this", "that", "with", "from", "your", "on", "at", "by"]

/-- Significant-word set of a topic (lines 117-122): lowercased
whitespace-split words, minus stopwords and words of length at most 2.
Python builds a set; the embedding deduplicates and treats the list as a
set everywhere (intersection counting and set equality of keys). -/
def sigWords (topic : String) : List String :=
  (((pySplitWs (topic.data.map pyLower)).map String.mk).filter
    (fun w => ¬ dedupStopwords.contains w && w.length > 2)).dedup

/-- Priority rank `{"high": 0, "medium": 1, "low": 2}.get(p, 2)`
(lines 112-113; the same table is used by delivery_agent.py). -/
def priorityRank (p : String) : Nat :=
  if p = "high" then 0 else if p = "medium" then 1 else 2

/-- Duplicate test of lines 131-134 for the current item's significant
words `kw` against a previously kept key `seenKey`:
`len(common) / max(len(kw), 1) >= 0.4 and len(common) >= 2`. The float
comparison `c / k >= 0.4` is exactly `5 * c ≥ 2 * k` for all list sizes
(the rational gap around 2/5 dwarfs double rounding error, and `c/k`
equal to 2/5 rounds to the same double as the literal `0.4`). -/
def isDupMatch (seenKey kw : List String) : Bool :=
  let common := interCount kw seenKey
  5 * common ≥ 2 * max kw.length 1 && common ≥ 2

/-- First matching key in `seen_topics` insertion order (lines 130-138),
returning the index of the kept item to merge into. -/
def findDup (kw : List String) : List (List String × Nat) → Option Nat
  | [] => none
  | (k, i) :: rest => if isDupMatch k kw then some i else findDup kw rest

/-- Equality of keys as frozensets. -/
def setEqKey (a b : List String) : Bool :=
  a.all (fun w => b.contains w) && b.all (fun w => a.contains w)

/-- Python dict assignment `seen_topics[key] = value`: replace the value
at an existing equal key (keeping its position), else append. -/
def dictInsert (key : List String) (v : Nat) :
    List (List String × Nat) → List (List String × Nat)
  | [] => [(key, v)]
  | (k, w) :: rest =>
    if setEqKey k key then (k, v) :: rest else (k, w) :: dictInsert key v rest

/-- In-place update of the i-th element of a list. -/
def modifyAt (i : Nat) (f : α → α) : List α → List α
  | [] => []
  | x :: xs =>
    match i with
    | 0 => f x :: xs
    | j + 1 => x :: modifyAt j f xs

/-- Merge of line 136: `seen_item.sources.extend(item.sources)`. -/
def extendSources (srcs : List ReportSource) (it : ReportItem) : ReportItem :=
  { it with sources := it.sources ++ srcs }

/-- Main loop of `_deduplicate_items` (lines 115-142). -/
def dedupLoop : List ReportItem → List (List String × Nat) → List ReportItem →
    List ReportItem
  | [], _, uniq => uniq
  | item :: rest, seen, uniq =>
    let kw := sigWords item.topic
    if kw = [] then dedupLoop rest seen (uniq ++ [item])
    else
      match findDup kw seen with
      | some i => dedupLoop rest seen (modifyAt i (extendSources item.sources) uniq)
      | none => dedupLoop rest (dictInsert kw uniq.length seen) (uniq ++ [item])

/-- Embedding of `AnalysisAgent._deduplicate_items`
(analysis_agent.py lines 106-144). -/
def deduplicateItems (items : List ReportItem) : List ReportItem :=
  let sortedItems := pySortBy
    (fun a b => decide (priorityRank a.priority < priorityRank b.priority)) items
  dedupLoop sortedItems [] []

/-! Grouping and the top-level `analyze`
(analysis_agent.py lines 89-104 and 146-160). -/

/-- One reply-prefix strip step of `_normalize_topic` (lines 157-159):
each prefix is tested once, in order. -/
def stripReplyPre (p : List Char) (s : List Char) : List Char :=
  if leadsWith p s then pyStrip (s.drop p.length) else s

/-- Embedding of `AnalysisAgent._normalize_topic`
(analysis_agent.py lines 155-160). -/
def normalizeTopic (subject : String) : String :=
  let n0 := (pyStrip subject.data).map pyLower
  let n1 := stripReplyPre ("re:".data) n0
  let n2 := stripReplyPre ("fw:".data) n1
  let n3 := stripReplyPre ("fwd:".data) n2
  let j := pyJoin ([' ']) (pySplitWs n3)
  if j = [] then "(no subject)" else String.mk j

/-- Python `dict.setdefault(topic, []).append(message)` on an
insertion-ordered dict. -/
def assocAppend (key : String) (m : GmailMessage) :
    List (String × List GmailMessage) → List (String × List GmailMessage)
  | [] => [(key, [m])]
  | (k, v) :: rest =>
    if k = key then (k, v ++ [m]) :: rest else (k, v) :: assocAppend key m rest

/-- Embedding of `AnalysisAgent._group_by_topic`
(analysis_agent.py lines 146-153): group by normalized topic in first-seen
order, then sort each group by `received_at` descending (stable). -/
def groupByTopic (messages : List GmailMessage) :
    List (String × List GmailMessage) :=
  let grouped := messages.foldl
    (fun acc m => assocAppend (normalizeTopic m.subject) m acc) []
  grouped.map (fun p =>
    (p.1, pySortBy (fun a b => decide (b.receivedAt < a.receivedAt)) p.2))

/-- Text after the first space of a display name
(`name_es.split(" ", 1)[1]`, line 454; every `name_es` contains a
space). -/
def afterFirstSpace (s : List Char) : List Char :=
  (s.dropWhile (fun c => c ≠ ' ')).drop 1

/-- Embedding of `AnalysisAgent._build_exec_summary`
(analysis_agent.py lines 439-462). -/
def buildExecSummary (items : List ReportItem) : String × String :=
  if items.isEmpty then ("Sin novedades relevantes.", "No relevant updates.")
  else
    let catCount : String → Nat := fun c => items.countP (fun i => i.category = c)
    let present := (["new_models", "research", "robots", "funding", "apps",
      "general"] : List String).filter (fun c => catCount c > 0)
    let partsEs := present.map (fun c =>
      (toString (catCount c)).data ++ (' ' :: afterFirstSpace (catNameEs c).data))
    let partsEn := present.map (fun c =>
      (toString (catCount c)).data ++ (' ' :: (catNameEn c).data))
    (String.mk (("Hoy: ".data) ++ pyJoin (", ".data) partsEs ++ (". Total: ".data)
       ++ (toString items.length).data ++ (" noticias.".data)),
     String.mk (("Today: ".data) ++ pyJoin (", ".data) partsEn ++ (". Total: ".data)
       ++ (toString items.length).data ++ (" news.".data)))

/-- Embedding of `AnalysisAgent.analyze` (analysis_agent.py
lines 89-104); `now` injects the wall-clock timestamp. -/
def analyze (now : Int) (messages : List GmailMessage)
    (includeExecSummary : Bool) : Report :=
  let grouped := groupByTopic messages
  let items0 := grouped.map (fun p => buildItem p.1 p.2)
  let items := deduplicateItems items0
  let ex := if includeExecSummary then buildExecSummary items else ("", "")
  { generatedAt := now
    executiveSummaryEs := ex.1
    executiveSummaryEn := ex.2
    items := items }

/-! Delivery-side item ordering (delivery_agent.py). The rendered report
interleaves headers and item text; the ordering claims are about the
sequence in which items appear, embedded below. -/

/-- Fixed display order `category_order` (delivery_agent.py line 97). -/
def deliveryCategoryOrder : List String :=
  ["new_models", "research", "robots", "funding", "apps", "general"]

/-- One category block of `_build_table_style_report` (lines 100-104):
the items of that category, stably sorted by priority rank. -/
def catBlock (items : List ReportItem) (catId : String) : List ReportItem :=
  pySortBy (fun a b => decide (priorityRank a.priority < priorityRank b.priority))
    (items.filter (fun i => i.category = catId))

/-- Order in which `_build_table_style_report` renders items
(delivery_agent.py lines 96-110): categories in display order, each block
sorted by priority (the `continue` on empty categories only skips
headers, so it does not affect the item sequence). -/
def tableStyleItemOrder (items : List ReportItem) : List ReportItem :=
  deliveryCategoryOrder.flatMap (fun c => catBlock items c)

/-- Order in which `_render_report` renders items
(delivery_agent.py lines 443-466): categories in display order, with no
per-category sort. -/
def renderReportItemOrder (items : List ReportItem) : List ReportItem :=
  deliveryCategoryOrder.flatMap (fun c => items.filter (fun i => i.category = c))

/-! Generic lemmas about the embedded Python primitives. -/

theorem pyInsert_perm (stay : α → α → Bool) (x : α) (l : List α) :
    List.Perm (pyInsert stay x l) (x :: l) := by
  induction l with
  | nil => exact List.Perm.refl _
  | cons y ys ih =>
    rw [pyInsert]
    split
    · exact (ih.cons y).trans (List.Perm.swap x y ys)
    · exact List.Perm.refl _

theorem pySortBy_perm (stay : α → α → Bool) (l : List α) :
    List.Perm (pySortBy stay l) l := by
  induction l with
  | nil => exact List.Perm.refl _
  | cons x xs ih => exact (pyInsert_perm stay x (pySortBy stay xs)).trans (ih.cons x)

theorem pyInsert_sorted (key : α → Nat) (x : α) (l : List α)
    (h : l.Pairwise (fun a b => key a ≤ key b)) :
    (pyInsert (fun a b => decide (key a < key b)) x l).Pairwise
      (fun a b => key a ≤ key b) := by
  induction l with
  | nil => simp [pyInsert]
  | cons y ys ih =>
    rcases List.pairwise_cons.mp h with ⟨hy, hys⟩
    rw [pyInsert]
    split
    · rename_i hlt
      refine List.pairwise_cons.mpr ⟨?_, ih hys⟩
      intro b hb
      rcases List.mem_cons.mp ((pyInsert_perm _ x ys).mem_iff.mp hb) with hbx | hbm
      · subst hbx
        exact le_of_lt (of_decide_eq_true hlt)
      · exact hy b hbm
    · rename_i hnlt
      have hxy : key x ≤ key y := by
        have := of_decide_eq_false (Bool.of_not_eq_true hnlt)
        omega
      refine List.pairwise_cons.mpr ⟨?_, h⟩
      intro b hb
      rcases List.mem_cons.mp hb with hby | hbm
      · subst hby; exact hxy
      · exact hxy.trans (hy b hbm)

theorem pySortBy_sorted (key : α → Nat) (l : List α) :
    (pySortBy (fun a b => decide (key a < key b)) l).Pairwise
      (fun a b => key a ≤ key b) := by
  induction l with
  | nil => simp [pySortBy]
  | cons x xs ih => exact pyInsert_sorted key x _ ih

theorem pyInsert_filter_key (key : α → Nat) (k : Nat) (x : α) (l : List α) :
    (pyInsert (fun a b => decide (key a < key b)) x l).filter
        (fun a => decide (key a = k)) =
      if key x = k then x :: l.filter (fun a => decide (key a = k))
      else l.filter (fun a => decide (key a = k)) := by
  induction l with
  | nil => by_cases hk : key x = k <;> simp [pyInsert, hk]
  | cons y ys ih =>
    rw [pyInsert]
    split
    · rename_i hlt
      have hlt' := of_decide_eq_true hlt
      rw [List.filter_cons, ih]
      by_cases hk : key x = k
      · have hyk : key y ≠ k := by omega
        simp [hk, hyk]
      · by_cases hyk : key y = k <;> simp [hk, hyk, List.filter_cons]
    · rw [List.filter_cons]
      by_cases hk : key x = k <;> simp [hk, List.filter_cons]

theorem pySortBy_filter_key (key : α → Nat) (k : Nat) (l : List α) :
    (pySortBy (fun a b => decide (key a < key b)) l).filter
        (fun a => decide (key a = k)) =
      l.filter (fun a => decide (key a = k)) := by
  induction l with
  | nil => rfl
  | cons x xs ih =>
    rw [pySortBy, pyInsert_filter_key]
    by_cases hk : key x = k <;> simp [hk, ih, List.filter_cons]

theorem strMk_ne_empty (l : List Char) (h : l ≠ []) : String.mk l ≠ "" := by
  intro he
  exact h (congrArg String.data he)

theorem dropWhile_head_not (p : α → Bool) (l : List α) (c : α) (t : List α)
    (h : l.dropWhile p = c :: t) : p c = false := by
  induction l with
  | nil => simp [List.dropWhile] at h
  | cons y ys ih =>
    rw [List.dropWhile_cons] at h
    split at h
    · exact ih h
    · rename_i hy
      cases h
      exact Bool.of_not_eq_true hy

theorem dropWhile_dropWhile (p : α → Bool) (l : List α) :
    (l.dropWhile p).dropWhile p = l.dropWhile p := by
  induction l with
  | nil => rfl
  | cons c cs ih =>
    rw [List.dropWhile_cons]
    split
    · exact ih
    · rename_i hc
      rw [List.dropWhile_cons, if_neg hc]

theorem dropWhile_eq_drop (p : α → Bool) (l : List α) :
    l.dropWhile p = l.drop (l.takeWhile p).length := by
  induction l with
  | nil => rfl
  | cons c cs ih =>
    rw [List.dropWhile_cons, List.takeWhile_cons]
    split
    · simpa [List.drop_succ_cons] using ih
    · simp

theorem dropTrailWhile_eq_take (p : α → Bool) (a : List α) :
    dropTrailWhile p a =
      a.take (a.length - (a.reverse.takeWhile p).length) := by
  unfold dropTrailWhile
  rw [dropWhile_eq_drop, List.reverse_drop, List.reverse_reverse,
    List.length_reverse]

theorem dropTrailWhile_idem (p : α → Bool) (l : List α) :
    dropTrailWhile p (dropTrailWhile p l) = dropTrailWhile p l := by
  unfold dropTrailWhile
  rw [List.reverse_reverse, dropWhile_dropWhile]

theorem dropWhile_dropTrail_dropWhile (p : α → Bool) (s : List α) :
    (dropTrailWhile p (s.dropWhile p)).dropWhile p =
      dropTrailWhile p (s.dropWhile p) := by
  cases h : dropTrailWhile p (s.dropWhile p) with
  | nil => rfl
  | cons c t =>
    have htake := dropTrailWhile_eq_take p (s.dropWhile p)
    rw [h] at htake
    have hc : p c = false := by
      rcases hs : s.dropWhile p with _ | ⟨x, xs⟩
      · rw [hs] at htake; simp at htake
      · rw [hs] at htake
        rcases hm : (x :: xs).length - ((x :: xs).reverse.takeWhile p).length with
          _ | m'
        · rw [hm] at htake; simp at htake
        · rw [hm, List.take_succ_cons] at htake
          have hx : x = c := (List.cons.injEq .. ▸ htake.symm).1
          subst hx
          exact dropWhile_head_not p s x xs hs
    rw [List.dropWhile_cons, if_neg (by simp [hc])]

theorem pyStrip_idem (s : List Char) : pyStrip (pyStrip s) = pyStrip s := by
  unfold pyStrip
  rw [dropWhile_dropTrail_dropWhile, dropTrailWhile_idem]

theorem pyStrip_length (s : List Char) : (pyStrip s).length ≤ s.length := by
  unfold pyStrip dropTrailWhile
  have h1 := dropWhile_len_le isPySpace s
  have h2 := dropWhile_len_le isPySpace (s.dropWhile isPySpace).reverse
  simp only [List.length_reverse] at *
  omega

theorem pySubF_length (m : List Char → Nat) (repl : List Char)
    (hr : repl.length ≤ 1) :
    ∀ (fuel : Nat) (s : List Char), (pySubF m repl fuel s).length ≤ s.length := by
  intro fuel
  induction fuel with
  | zero => intro s; cases s <;> simp [pySubF]
  | succ f ih =>
    intro s
    cases s with
    | nil => simp [pySubF]
    | cons c cs =>
      cases hm : m (c :: cs) with
      | zero =>
        simp only [pySubF, hm]
        simpa using ih cs
      | succ n =>
        simp only [pySubF, hm]
        have h2 : (cs.drop n).length ≤ cs.length := by simp
        have h3 := ih (cs.drop n)
        simp only [List.length_append, List.length_cons]
        omega

theorem pySub_length (m : List Char → Nat) (repl : List Char) (hr : repl.length ≤ 1)
    (s : List Char) : (pySub m repl s).length ≤ s.length :=
  pySubF_length m repl hr s.length s

theorem cleanText_length (s : List Char) : (cleanText s).length ≤ s.length := by
  simp only [cleanText]
  refine le_trans (pyStrip_length _) ?_
  iterate 28 refine le_trans (pySub_length _ _ (by simp) _) ?_
  exact le_refl _

/-! Spec-side definitions, written from the specification's words, to be
compared with the definitions embedded from the source. -/

/-- Priority decision table exactly as claim C5 states it: funding-tagged
or company-announcement content is high; otherwise AI/ML-tagged content
or content categorized as research or robots is medium; everything else
is low. -/
def claimPriorityTable (tags : List String) (hasCompanyNews : Bool)
    (category : String) : String :=
  if tags.contains ("funding") || hasCompanyNews then "high"
  else if tags.contains ("ai") || category = "research" || category = "robots"
    then "medium"
  else "low"

/-- Priority decision table as amended to match the source: content
tagged funding, carrying company announcements, or categorized
funding/new-models is high; otherwise content tagged ai or company, or
categorized research/robots, is medium; everything else is low. -/
def amendedPriorityTable (tags : List String) (hasCompanyNews : Bool)
    (category : String) : String :=
  if tags.contains ("funding") || hasCompanyNews ||
      category = "funding" || category = "new_models" then "high"
  else if tags.contains ("ai") || tags.contains ("company") ||
      category = "research" || category = "robots" then "medium"
  else "low"

/-- Duplicate criterion exactly as claim C1 states it: with `a` the
previously kept item's significant words and `b` the words of the item
under test, require |a ∩ b| / min(|a|, |b|) at least 0.50 and
|a ∩ b| at least 2. -/
def claimDupMatch (a b : List String) : Bool :=
  2 * interCount a b ≥ min a.length b.length && interCount a b ≥ 2

/-- Message whose analysis yields a new-models item with no tags worth
anything (used by the C5 counterexample). -/
def geminiMsg : GmailMessage :=
  { messageId := "1", subject := "gemini launches", sender := "Demo <d@x>",
    receivedAt := 0, snippet := "", bodyText := "", bodyHtml := "",
    link := "", links := [] }

/-- C5. The claim's decision table omits the category clauses of the
source: `_score_priority` also returns "high" for items categorized
funding or new-models (analysis_agent.py line 261) and "medium" for
company-tagged items (line 264). Counterexample: an item with tags
`["general"]`, no company news, category "new_models" — produced by
analyzing a message with subject "gemini launches" — gets priority
"high" from the code but "low" from the claim's table. -/
theorem c5_counterexample :
    scorePriority ["general"] false "new_models" = "high" ∧
    claimPriorityTable ["general"] false "new_models" = "low" ∧
    ∃ i ∈ (analyze 0 [geminiMsg] false).items,
      i.tags = ["general"] ∧ i.hasCompanyNews = false ∧
      i.category = "new_models" ∧ i.priority = "high" := by
  refine ⟨rfl, rfl, ?_⟩
  decide

/-- C5 (amended). The priority assigned by `_score_priority` follows the
amended decision table: funding-tagged, company-announcement, or
funding/new-models-categorized content is high; otherwise ai-tagged,
company-tagged, or research/robots-categorized content is medium;
everything else is low. -/
theorem c5_priority_table (tags : List String) (hcn : Bool) (cat : String) :
    scorePriority tags hcn cat = amendedPriorityTable tags hcn cat := rfl

/-- Text with the footer marker "Unsubscribe" at character offset 34 of
79, well after 30% of the length (used by the C7 counterexample). -/
def footerSampleLate : List Char :=
  ("Big funding round closed quickly. Unsubscribe here. Extra tail content stays.").data

/-- Text with the footer marker "Unsubscribe" at offset 0, before 30% of
the length (used by the C7 theorems). -/
def footerSampleEarly : List Char :=
  ("Unsubscribe here. Later body sentence continues with more detail.").data

/-- C7. The claim says a footer marker at or after 30% of the text's
length always triggers truncation, with all text after the marker
discarded. In `_clean_text` there is no position-dependent truncation at
all: here the marker "Unsubscribe" sits at offset 34 of a 78-character
text (34/78 is at least 30%), yet the text after the marker's sentence,
"Extra tail content stays.", survives normalization — only the marker's
own sentence is removed. -/
theorem c7_counterexample :
    leadsWith (("Unsubscribe").data) (footerSampleLate.drop 34) = true ∧
    10 * 34 ≥ 3 * footerSampleLate.length ∧
    cleanText footerSampleLate =
      ("Big funding round closed quickly. Extra tail content stays.").data := by
  decide

/-- C7 (amended). The Normalizer removes boilerplate/footer phrases
locally (from the marker through the end of its sentence) wherever they
occur, with no 30%-position guard and no truncation of the remaining
text: a marker at offset 0 (before 30% of the length) is removed just
like one at offset 34 (after 30%), and in both cases the text after the
marker's sentence is kept. -/
theorem c7_marker_position_independent :
    leadsWith (("Unsubscribe").data) (footerSampleEarly.drop 0) = true ∧
    10 * 0 < 3 * footerSampleEarly.length ∧
    cleanText footerSampleEarly =
      ("Later body sentence continues with more detail.").data ∧
    leadsWith (("Unsubscribe").data) (footerSampleLate.drop 34) = true ∧
    10 * 34 ≥ 3 * footerSampleLate.length ∧
    cleanText footerSampleLate =
      ("Big funding round closed quickly. Extra tail content stays.").data := by
  decide

/-- C8. Normalization is not idempotent: `_clean_text` removes the inner
empty parentheses of "( ())" in one pass, producing "( )", and only a
second pass removes the empty parentheses this creates, producing "". -/
theorem c8_counterexample :
    cleanText (("( ())").data) = ("( )").data ∧
    cleanText (cleanText (("( ())").data)) = [] ∧
    cleanText (cleanText (("( ())").data)) ≠ cleanText (("( ())").data) := by
  decide

/-- Minimal source record used by the concrete examples. -/
def namedSrc (n : String) : ReportSource :=
  { sender := n, receivedAt := 0, emailLink := "", extractedLinks := [],
    summary := "" }

theorem interCount_nil_right {α : Type} [DecidableEq α] (a : List α) :
    interCount a ([] : List α) = 0 := by
  simp [interCount]

theorem isDupMatch_nil_left (kw : List String) : isDupMatch [] kw = false := by
  simp [isDupMatch, interCount_nil_right]

theorem isDupMatch_nil_right (k : List String) : isDupMatch k [] = false := by
  simp [isDupMatch, interCount]

/-- Computation of the deduplicator on a two-item input whose first item
does not rank below the second: the pair is merged into the first item
exactly when `isDupMatch` holds of their significant-word sets. -/
theorem dedup_pair_eq (i1 i2 : ReportItem)
    (h : priorityRank i1.priority ≤ priorityRank i2.priority) :
    deduplicateItems [i1, i2] =
      if isDupMatch (sigWords i1.topic) (sigWords i2.topic) = true
      then [extendSources i2.sources i1] else [i1, i2] := by
  have hstay : decide (priorityRank i2.priority < priorityRank i1.priority) = false :=
    decide_eq_false (by omega)
  have hsorted : pySortBy
      (fun a b => decide (priorityRank a.priority < priorityRank b.priority))
      [i1, i2] = [i1, i2] := by
    simp [pySortBy, pyInsert, hstay]
  simp only [deduplicateItems, hsorted]
  by_cases h1 : sigWords i1.topic = []
  · have hfalse : isDupMatch (sigWords i1.topic) (sigWords i2.topic) = false := by
      rw [h1]; exact isDupMatch_nil_left _
    rw [if_neg (by simp [hfalse])]
    by_cases h2 : sigWords i2.topic = [] <;>
      simp [dedupLoop, h1, h2, findDup]
  · by_cases h2 : sigWords i2.topic = []
    · rw [if_neg (by simp [h2, isDupMatch_nil_right])]
      simp [dedupLoop, h1, h2, findDup, dictInsert]
    · by_cases hd : isDupMatch (sigWords i1.topic) (sigWords i2.topic) = true
      · rw [if_pos hd]
        simp [dedupLoop, h1, h2, findDup, dictInsert, hd, modifyAt]
      · rw [if_neg hd]
        simp only [Bool.not_eq_true] at hd
        simp [dedupLoop, h1, h2, findDup, dictInsert, hd]

/-- Kept item of the C1 counterexample: significant words
{alpha, beta}. -/
def cxKeptItem : ReportItem :=
  { topic := "alpha beta", tags := [], priority := "high", summary := "",
    sources := [namedSrc ("Src A")] }

/-- Item under test of the C1 counterexample: significant words
{alpha, beta, gamma, delta, epsil, zeta}. -/
def cxTestItem : ReportItem :=
  { topic := "alpha beta gamma delta epsil zeta", tags := [],
    priority := "high", summary := "", sources := [namedSrc ("Src B")] }

/-- C1. The claim's duplicate criterion — |A ∩ B| / min(|A|, |B|) at
least 0.50 and |A ∩ B| at least 2 — does not match the code, which uses
|A ∩ B| / |B| at least 0.4 with B the item under test
(analysis_agent.py line 133). Counterexample: word sets A = {alpha, beta}
and B = {alpha, beta, gamma, delta, epsil, zeta} have intersection 2, so
the claim's ratio is 2/min(2,6) = 1.0 and the claim declares a duplicate,
but the code computes 2/6 < 0.4 and keeps both items. -/
theorem c1_counterexample :
    sigWords cxKeptItem.topic = ["alpha", "beta"] ∧
    sigWords cxTestItem.topic = ["alpha", "beta", "gamma", "delta", "epsil", "zeta"] ∧
    claimDupMatch (sigWords cxKeptItem.topic) (sigWords cxTestItem.topic) = true ∧
    deduplicateItems [cxKeptItem, cxTestItem] = [cxKeptItem, cxTestItem] := by
  decide

/-- First OpenAI item of the spec's merge example. -/
def openaiItemA : ReportItem :=
  { topic := "OpenAI launches new model today", tags := ["ai"],
    priority := "high", summary := "s1", sources := [namedSrc ("TechNews A")],
    category := "new_models" }

/-- Second OpenAI item of the spec's merge example. -/
def openaiItemB : ReportItem :=
  { topic := "OpenAI today launches a new model", tags := ["ai"],
    priority := "high", summary := "s2", sources := [namedSrc ("TechNews B")],
    category := "new_models" }

/-- C1 (amended). The Deduplicator declares a duplicate match exactly
when 5·|A ∩ B| ≥ 2·|B| (that is, |A ∩ B| / |B| ≥ 0.4, with B the
significant-word set of the item under test) and |A ∩ B| ≥ 2; in
particular the two OpenAI headlines of the spec's example are merged
into one item whose source records carry both original source names. -/
theorem c1_dedup_match_rule :
    (∀ i1 i2 : ReportItem,
      priorityRank i1.priority ≤ priorityRank i2.priority →
      ((deduplicateItems [i1, i2]).length = 1 ↔
        isDupMatch (sigWords i1.topic) (sigWords i2.topic) = true)) ∧
    (∀ a b : List String, isDupMatch a b =
      (5 * interCount b a ≥ 2 * max b.length 1 && interCount b a ≥ 2)) ∧
    deduplicateItems [openaiItemA, openaiItemB] =
      [{ openaiItemA with sources := openaiItemA.sources ++ openaiItemB.sources }] ∧
    (deduplicateItems [openaiItemA, openaiItemB]).flatMap
      (fun i => i.sources.map (fun s => s.sender)) = ["TechNews A", "TechNews B"] := by
  refine ⟨?_, fun a b => rfl, by decide, by decide⟩
  intro i1 i2 h
  rw [dedup_pair_eq i1 i2 h]
  by_cases hd : isDupMatch (sigWords i1.topic) (sigWords i2.topic) = true <;>
    simp [hd]

/-- C1 (witness). The two-item characterization applied to the concrete
counterexample items. -/
theorem c1_dedup_match_rule_witness :
    (deduplicateItems [cxKeptItem, cxTestItem]).length = 1 ↔
      isDupMatch (sigWords cxKeptItem.topic) (sigWords cxTestItem.topic) = true :=
  c1_dedup_match_rule.1 cxKeptItem cxTestItem (by decide)

/-- Source record shared verbatim by both items of the C2
counterexample. -/
def sharedSrc : ReportSource :=
  { sender := "Same Newsletter", receivedAt := 5, emailLink := "L",
    extractedLinks := [], summary := "sum" }

/-- Kept item of the C2 counterexample. -/
def c2ItemKept : ReportItem :=
  { topic := "acme raises funding round", tags := [], priority := "high",
    summary := "", sources := [sharedSrc] }

/-- Duplicate item of the C2 counterexample, with the identical source
record. -/
def c2ItemDup : ReportItem :=
  { topic := "acme raises huge funding round", tags := [], priority := "high",
    summary := "", sources := [sharedSrc] }

/-- C2. The claim says a duplicate's source is appended only if not
already present verbatim. The code extends unconditionally
(analysis_agent.py line 136): merging two items that carry the identical
source record leaves the kept item with that record twice. -/
theorem c2_counterexample :
    c2ItemKept.sources = [sharedSrc] ∧ c2ItemDup.sources = [sharedSrc] ∧
    (deduplicateItems [c2ItemKept, c2ItemDup]).map (fun i => i.sources) =
      [[sharedSrc, sharedSrc]] := by
  decide

/-- C2 (amended). On a duplicate match the duplicate's whole source list
is appended to the kept item's sources unconditionally (even when already
present verbatim), and every other field of the kept item — topic, tags,
priority, summary, category, flags — is unchanged by the merge, as the
record-update form of the result shows. -/
theorem c2_merge_frame (i1 i2 : ReportItem)
    (h : priorityRank i1.priority ≤ priorityRank i2.priority)
    (hdup : isDupMatch (sigWords i1.topic) (sigWords i2.topic) = true) :
    deduplicateItems [i1, i2] =
      [{ i1 with sources := i1.sources ++ i2.sources }] := by
  rw [dedup_pair_eq i1 i2 h, if_pos hdup]
  rfl

/-- C2 (witness). The merge-frame theorem applied to the concrete
counterexample items. -/
theorem c2_merge_frame_witness :
    deduplicateItems [c2ItemKept, c2ItemDup] =
      [{ c2ItemKept with sources := c2ItemKept.sources ++ c2ItemDup.sources }] :=
  c2_merge_frame c2ItemKept c2ItemDup (by decide) (by decide)

theorem modifyAt_mem (i : Nat) (f : α → α) (l : List α) (x : α)
    (hx : x ∈ modifyAt i f l) : x ∈ l ∨ ∃ y ∈ l, x = f y := by
  induction l generalizing i with
  | nil => simp [modifyAt] at hx
  | cons z zs ih =>
    cases i with
    | zero =>
      rcases List.mem_cons.mp hx with rfl | hmem
      · exact Or.inr ⟨z, List.mem_cons_self z zs, rfl⟩
      · exact Or.inl (List.mem_cons_of_mem z hmem)
    | succ i' =>
      rcases List.mem_cons.mp hx with rfl | hmem
      · exact Or.inl (List.mem_cons_self x zs)
      · rcases ih i' hmem with hm | ⟨y, hy, he⟩
        · exact Or.inl (List.mem_cons_of_mem z hm)
        · exact Or.inr ⟨y, List.mem_cons_of_mem z hy, he⟩

/-- Rank-preserving in-place updates keep a list sorted by priority
rank. -/
theorem modifyAt_rank_pairwise (i : Nat) (f : ReportItem → ReportItem)
    (hf : ∀ x, priorityRank (f x).priority = priorityRank x.priority)
    (l : List ReportItem)
    (h : l.Pairwise (fun a b => priorityRank a.priority ≤ priorityRank b.priority)) :
    (modifyAt i f l).Pairwise
      (fun a b => priorityRank a.priority ≤ priorityRank b.priority) := by
  induction l generalizing i with
  | nil => simp [modifyAt]
  | cons x xs ih =>
    rcases List.pairwise_cons.mp h with ⟨hx, hxs⟩
    cases i with
    | zero =>
      refine List.pairwise_cons.mpr ⟨?_, hxs⟩
      intro y hy
      rw [hf x]
      exact hx y hy
    | succ j =>
      refine List.pairwise_cons.mpr ⟨?_, ih j hxs⟩
      intro y hy
      rcases modifyAt_mem j f xs y hy with hm | ⟨z, hz, he⟩
      · exact hx y hm
      · rw [he, hf z]
        exact hx z hz

/-- Sortedness of the deduplication loop output: if the accumulated items
are rank-sorted, the remaining items are rank-sorted, and every
accumulated item ranks no higher than every remaining one, the output is
rank-sorted (merging preserves priorities). -/
theorem dedupLoop_sorted :
    ∀ (rest : List ReportItem) (seen : List (List String × Nat))
      (uniq : List ReportItem),
    uniq.Pairwise (fun a b => priorityRank a.priority ≤ priorityRank b.priority) →
    rest.Pairwise (fun a b => priorityRank a.priority ≤ priorityRank b.priority) →
    (∀ x ∈ uniq, ∀ y ∈ rest, priorityRank x.priority ≤ priorityRank y.priority) →
    (dedupLoop rest seen uniq).Pairwise
      (fun a b => priorityRank a.priority ≤ priorityRank b.priority) := by
  intro rest
  induction rest with
  | nil => intro seen uniq hu _ _; simpa [dedupLoop] using hu
  | cons item rest' ih =>
    intro seen uniq hu hr hcross
    rcases List.pairwise_cons.mp hr with ⟨hhd, hr'⟩
    have happend : (uniq ++ [item]).Pairwise
        (fun a b => priorityRank a.priority ≤ priorityRank b.priority) := by
      rw [List.pairwise_append]
      refine ⟨hu, by simp, ?_⟩
      intro x hx y hy
      rcases List.mem_singleton.mp hy with rfl
      exact hcross x hx y (List.mem_cons_self _ _)
    have hcross' : ∀ x ∈ uniq ++ [item], ∀ y ∈ rest',
        priorityRank x.priority ≤ priorityRank y.priority := by
      intro x hx y hy
      rcases List.mem_append.mp hx with hm | hm
      · exact hcross x hm y (List.mem_cons_of_mem _ hy)
      · rcases List.mem_singleton.mp hm with rfl
        exact hhd y hy
    by_cases hkw : sigWords item.topic = []
    · rw [dedupLoop, if_pos hkw]
      exact ih seen (uniq ++ [item]) happend hr' hcross'
    · cases hfd : findDup (sigWords item.topic) seen with
      | some i =>
        rw [dedupLoop, if_neg hkw, hfd]
        refine ih seen _ ?_ hr' ?_
        · exact modifyAt_rank_pairwise i (extendSources item.sources)
            (fun x => rfl) uniq hu
        · intro x hx y hy
          rcases modifyAt_mem i _ uniq x hx with hm | ⟨z, hz, he⟩
          · exact hcross x hm y (List.mem_cons_of_mem _ hy)
          · rw [he]
            exact hcross z hz y (List.mem_cons_of_mem _ hy)
      | none =>
        rw [dedupLoop, if_neg hkw, hfd]
        exact ih _ (uniq ++ [item]) happend hr' hcross'

/-- Output of the deduplicator is sorted by priority rank: high items
first, then medium, then low. -/
theorem deduplicateItems_sorted (l : List ReportItem) :
    (deduplicateItems l).Pairwise
      (fun a b => priorityRank a.priority ≤ priorityRank b.priority) := by
  refine dedupLoop_sorted _ [] [] (by simp) ?_ (by simp)
  exact pySortBy_sorted (fun i : ReportItem => priorityRank i.priority) l

/-- C3. The table-style report (the renderer used for the delivered
document) lists items grouped by category in the fixed display order
new-models, research, robots, funding, apps, general; within each
category's block every item belongs to that category, priority ranks are
nondecreasing (all high before any medium before any low), and for each
priority tier the block preserves the original relative order of the
items exactly (stable sort). The preview renderer `_render_report` does
not sort, but on deduplicated items (which the deduplicator emits
globally priority-sorted) its per-category blocks are priority-sorted as
well — the final conjunct. -/
theorem c3_assembler_order (items : List ReportItem) :
    tableStyleItemOrder items = deliveryCategoryOrder.flatMap (catBlock items) ∧
    (∀ c : String, ∀ i ∈ catBlock items c, i.category = c) ∧
    (∀ c : String, (catBlock items c).Pairwise
      (fun a b => priorityRank a.priority ≤ priorityRank b.priority)) ∧
    (∀ c : String, ∀ k : Nat,
      (catBlock items c).filter (fun i => decide (priorityRank i.priority = k)) =
      (items.filter (fun i => i.category = c)).filter
        (fun i => decide (priorityRank i.priority = k))) ∧
    (∀ l : List ReportItem,
      renderReportItemOrder (deduplicateItems l) =
        deliveryCategoryOrder.flatMap
          (fun c => (deduplicateItems l).filter (fun i => i.category = c)) ∧
      ∀ c : String, ((deduplicateItems l).filter (fun i => i.category = c)).Pairwise
        (fun a b => priorityRank a.priority ≤ priorityRank b.priority)) := by
  refine ⟨rfl, ?_, ?_, ?_, ?_⟩
  · intro c i hi
    have hmem : i ∈ items.filter (fun i => i.category = c) :=
      (pySortBy_perm _ _).mem_iff.mp hi
    exact of_decide_eq_true (List.mem_filter.mp hmem).2
  · intro c
    exact pySortBy_sorted (fun i : ReportItem => priorityRank i.priority) _
  · intro c k
    exact pySortBy_filter_key (fun i : ReportItem => priorityRank i.priority) k _
  · intro l
    exact ⟨rfl, fun c => (deduplicateItems_sorted l).filter _⟩

/-- C3 (witness). The ordering theorem applied to a concrete singleton
list. -/
theorem c3_assembler_order_witness : cxKeptItem.category = "general" :=
  (c3_assembler_order [cxKeptItem]).2.1 ("general") cxKeptItem (by decide)

/-- Decomposition of Python `max(..., key=...)`: the result splits its
input into a strict-smaller preceding part and a no-larger following
part, so it is the first element attaining the maximum value. -/
theorem pyMaxBy_decomp (best : String × Nat) (l : List (String × Nat)) :
    ∃ pre suf, best :: l = pre ++ pyMaxBy best l :: suf ∧
      (∀ p ∈ pre, p.2 < (pyMaxBy best l).2) ∧
      (∀ p ∈ suf, p.2 ≤ (pyMaxBy best l).2) := by
  induction l generalizing best with
  | nil => exact ⟨[], [], rfl, by simp, by simp⟩
  | cons q rest ih =>
    rw [pyMaxBy]
    by_cases hq : q.2 > best.2
    · rw [if_pos hq]
      obtain ⟨pre, suf, hdec, hpre, hsuf⟩ := ih q
      refine ⟨best :: pre, suf, by rw [List.cons_append, ← hdec], ?_, hsuf⟩
      intro p hp
      have hqle : q.2 ≤ (pyMaxBy q rest).2 := by
        cases pre with
        | nil =>
          have hh := (List.cons.injEq .. ▸ hdec).1
          rw [← hh]
        | cons a pre' =>
          have hh : a = q := (List.cons.injEq .. ▸ hdec).1.symm
          exact le_of_lt (hh ▸ hpre a (List.mem_cons_self a pre'))
      rcases List.mem_cons.mp hp with rfl | hmem
      · omega
      · exact hpre p hmem
    · rw [if_neg hq]
      obtain ⟨pre, suf, hdec, hpre, hsuf⟩ := ih best
      cases pre with
      | nil =>
        have hh := List.cons.injEq .. ▸ hdec
        refine ⟨[], q :: rest, by rw [List.nil_append, ← hh.1], by simp, ?_⟩
        intro p hp
        rcases List.mem_cons.mp hp with rfl | hmem
        · rw [← hh.1]; omega
        · exact hh.2 ▸ hsuf p (hh.2 ▸ hmem)
      | cons a pre' =>
        have hh := List.cons.injEq .. ▸ hdec
        have ha : a = best := hh.1.symm
        refine ⟨best :: q :: pre', suf, ?_, ?_, hsuf⟩
        · have hr : rest = pre' ++ pyMaxBy best rest :: suf := hh.2
          rw [List.cons_append, List.cons_append]
          conv_rhs => rw [← hr]
        · intro p hp
          have hbest : best.2 < (pyMaxBy best rest).2 :=
            ha ▸ hpre a (List.mem_cons_self a pre')
          rcases List.mem_cons.mp hp with rfl | hmem
          · exact hbest
          · rcases List.mem_cons.mp hmem with rfl | hmem'
            · omega
            · exact hpre p (List.mem_cons_of_mem a hmem')

/-- Transport of a decomposition of `(order.map f).filter p` back to a
decomposition of `order`, for a tagging function satisfying
`(f c).1 = c`: every category before the chosen one was either filtered
out or sits in the preceding part of the filtered list. -/
theorem filter_map_decomp (f : String → String × Nat) (p : String × Nat → Bool)
    (hf : ∀ c, (f c).1 = c) :
    ∀ (order : List String) (preS sufS : List (String × Nat)) (m : String × Nat),
    (order.map f).filter p = preS ++ m :: sufS →
    ∃ preO sufO, order = preO ++ m.1 :: sufO ∧ m = f m.1 ∧
      ∀ c ∈ preO, p (f c) = false ∨ f c ∈ preS := by
  intro order
  induction order with
  | nil =>
    intro preS sufS m h
    simp at h
  | cons c rest ih =>
    intro preS sufS m h
    rw [List.map_cons, List.filter_cons] at h
    by_cases hc : p (f c) = true
    · rw [if_pos hc] at h
      cases preS with
      | nil =>
        rw [List.nil_append] at h
        have hh := List.cons.injEq .. ▸ h
        have hc1 : m.1 = c := by rw [← hh.1, hf c]
        refine ⟨[], rest, ?_, ?_, by simp⟩
        · rw [List.nil_append, hc1]
        · rw [hc1]; exact hh.1.symm
      | cons a preS' =>
        rw [List.cons_append] at h
        have hh := List.cons.injEq .. ▸ h
        obtain ⟨preO', sufO, hdec, hm, hprop⟩ := ih preS' sufS m hh.2
        refine ⟨c :: preO', sufO, by rw [List.cons_append, hdec], hm, ?_⟩
        intro d hd
        rcases List.mem_cons.mp hd with rfl | hmem
        · exact Or.inr (hh.1 ▸ List.mem_cons_self a preS')
        · rcases hprop d hmem with hx | hx
          · exact Or.inl hx
          · exact Or.inr (List.mem_cons_of_mem a hx)
    · rw [if_neg hc] at h
      obtain ⟨preO', sufO, hdec, hm, hprop⟩ := ih preS sufS m h
      refine ⟨c :: preO', sufO, by rw [List.cons_append, hdec], hm, ?_⟩
      intro d hd
      rcases List.mem_cons.mp hd with rfl | hmem
      · exact Or.inl (Bool.of_not_eq_true hc)
      · exact hprop d hmem

/-- C4. The classifier scores each non-general category by counting its
keywords occurring as substrings of the lowercased text, returns
"general" exactly when every score is zero, and otherwise returns the
first category (in the fixed `CATEGORIES` precedence order) attaining the
maximal, positive score. -/
theorem c4_classifier (text : List Char) :
    (classifyCategory text = "general" ↔
      ∀ c ∈ nonGeneralOrder, catScore (text.map pyLower) c = 0) ∧
    (classifyCategory text ≠ "general" →
      classifyCategory text ∈ nonGeneralOrder ∧
      0 < catScore (text.map pyLower) (classifyCategory text) ∧
      (∀ c ∈ nonGeneralOrder, catScore (text.map pyLower) c ≤
        catScore (text.map pyLower) (classifyCategory text)) ∧
      ∃ pre suf, nonGeneralOrder = pre ++ classifyCategory text :: suf ∧
        ∀ c ∈ pre, catScore (text.map pyLower) c <
          catScore (text.map pyLower) (classifyCategory text)) := by
  have hgen : ("general" : String) ∉ nonGeneralOrder := by decide
  cases hs : (nonGeneralOrder.map
      (fun c => (c, catScore (text.map pyLower) c))).filter
      (fun p => decide (p.2 > 0)) with
  | nil =>
    have hcl : classifyCategory text = "general" := by
      simp only [classifyCategory]
      rw [hs]
    constructor
    · rw [hcl]
      simp only [true_iff]
      intro c hc
      have h0 := List.filter_eq_nil_iff.mp hs
        (c, catScore (text.map pyLower) c)
          (List.mem_map_of_mem (fun c => (c, catScore (text.map pyLower) c)) hc)
      simp at h0
      omega
    · intro hne
      exact absurd hcl hne
  | cons s rest =>
    have hcl : classifyCategory text = (pyMaxBy s rest).1 := by
      simp only [classifyCategory]
      rw [hs]
    obtain ⟨preS, sufS, hdecS, hpreS, hsufS⟩ := pyMaxBy_decomp s rest
    have hfeq : (nonGeneralOrder.map
        (fun c => (c, catScore (text.map pyLower) c))).filter
        (fun p => decide (p.2 > 0)) = preS ++ pyMaxBy s rest :: sufS := by
      rw [hs]; exact hdecS
    obtain ⟨preO, sufO, hdecO, hm, hprop⟩ := filter_map_decomp
      (fun c => (c, catScore (text.map pyLower) c))
      (fun p => decide (p.2 > 0)) (fun c => rfl)
      nonGeneralOrder preS sufS (pyMaxBy s rest) hfeq
    have hmemS : pyMaxBy s rest ∈ (nonGeneralOrder.map
        (fun c => (c, catScore (text.map pyLower) c))).filter
        (fun p => decide (p.2 > 0)) := by
      rw [hfeq]
      exact List.mem_append.mpr (Or.inr (List.mem_cons_self _ _))
    have hpos : 0 < (pyMaxBy s rest).2 := by
      have := (List.mem_filter.mp hmemS).2
      simpa using this
    have hscore : (pyMaxBy s rest).2 =
        catScore (text.map pyLower) (pyMaxBy s rest).1 := by
      conv_lhs => rw [hm]
    have hmemO : classifyCategory text ∈ nonGeneralOrder := by
      rw [hcl, hdecO]
      exact List.mem_append.mpr (Or.inr (List.mem_cons_self _ _))
    have hne : classifyCategory text ≠ "general" := by
      intro he
      exact hgen (he ▸ hmemO)
    have hmax : ∀ c ∈ nonGeneralOrder, catScore (text.map pyLower) c ≤
        catScore (text.map pyLower) (classifyCategory text) := by
      intro c hc
      rw [hcl, ← hscore]
      by_cases hcp : 0 < catScore (text.map pyLower) c
      · have hmemF : (c, catScore (text.map pyLower) c) ∈
            (nonGeneralOrder.map
              (fun c => (c, catScore (text.map pyLower) c))).filter
              (fun p => decide (p.2 > 0)) := by
          refine List.mem_filter.mpr ⟨?_, by simpa using hcp⟩
          exact List.mem_map_of_mem _ hc
        rw [hfeq] at hmemF
        rcases List.mem_append.mp hmemF with hx | hx
        · exact le_of_lt (hpreS _ hx)
        · rcases List.mem_cons.mp hx with he | hx'
          · rw [show catScore (text.map pyLower) c =
              ((c, catScore (text.map pyLower) c)).2 from rfl, he]
          · exact hsufS _ hx'
      · omega
    refine ⟨⟨fun he => absurd he hne, fun hall => ?_⟩, fun _ =>
      ⟨hmemO, by rw [hcl, ← hscore]; exact hpos, hmax, ?_⟩⟩
    · exfalso
      have h0 := hall (classifyCategory text) hmemO
      rw [hcl, ← hscore] at h0
      omega
    · refine ⟨preO, sufO, by rw [hcl]; exact hdecO, ?_⟩
      intro c hc
      rw [hcl, ← hscore]
      rcases hprop c hc with hx | hx
      · have : ¬ 0 < catScore (text.map pyLower) c := by simpa using hx
        omega
      · have := hpreS _ hx
        simpa using this

/-- C4 (witness). The classifier theorem applied to a concrete text that
matches new-models keywords. -/
theorem c4_classifier_witness :
    classifyCategory (("gemini launches").data) ∈ nonGeneralOrder :=
  ((c4_classifier (("gemini launches").data)).2 (by decide)).1

/-! Lemmas about the deduplication loop, for claims C9 and C10. -/

theorem modifyAt_length (i : Nat) (f : α → α) (l : List α) :
    (modifyAt i f l).length = l.length := by
  induction l generalizing i with
  | nil => simp [modifyAt]
  | cons x xs ih =>
    cases i with
    | zero => rfl
    | succ j => simp [modifyAt, ih]

theorem modifyAt_getElem? (i j : Nat) (f : α → α) (l : List α) :
    (modifyAt i f l)[j]? = if i = j then (l[j]?).map f else l[j]? := by
  induction l generalizing i j with
  | nil => cases i <;> simp [modifyAt]
  | cons x xs ih =>
    cases i with
    | zero =>
      cases j with
      | zero => simp [modifyAt]
      | succ j' => simp [modifyAt]
    | succ i' =>
      cases j with
      | zero => simp [modifyAt]
      | succ j' => simpa [modifyAt] using ih i' j'

theorem modifyAt_filter_of_false (p : α → Bool) (i : Nat) (f : α → α)
    (l : List α) (x : α) (hx : l[i]? = some x) (h1 : p x = false)
    (h2 : p (f x) = false) :
    (modifyAt i f l).filter p = l.filter p := by
  induction l generalizing i with
  | nil => simp [modifyAt]
  | cons z zs ih =>
    cases i with
    | zero =>
      simp only [List.getElem?_cons_zero, Option.some.injEq] at hx
      subst hx
      simp [modifyAt, List.filter_cons, h1, h2]
    | succ i' =>
      simp only [List.getElem?_cons_succ] at hx
      simp only [modifyAt, List.filter_cons]
      rw [ih i' hx]

theorem modifyAt_flatMap_perm (g : α → List β) (f : α → α) (s : List β)
    (hg : ∀ x, g (f x) = g x ++ s) (i : Nat) (l : List α)
    (hi : i < l.length) :
    List.Perm ((modifyAt i f l).flatMap g) (l.flatMap g ++ s) := by
  induction l generalizing i with
  | nil => simp at hi
  | cons x xs ih =>
    cases i with
    | zero =>
      simp only [modifyAt, List.flatMap_cons, hg]
      rw [List.append_assoc, List.append_assoc]
      exact List.Perm.append_left (g x) List.perm_append_comm
    | succ i' =>
      simp only [modifyAt, List.flatMap_cons]
      rw [List.append_assoc]
      exact List.Perm.append_left (g x)
        (ih i' (by simpa using Nat.lt_of_succ_lt_succ hi))

theorem findDup_mem (kw : List String) (seen : List (List String × Nat))
    (i : Nat) (h : findDup kw seen = some i) : ∃ k, (k, i) ∈ seen := by
  induction seen with
  | nil => simp [findDup] at h
  | cons q rest ih =>
    obtain ⟨k0, i0⟩ := q
    rw [findDup] at h
    split at h
    · cases h
      exact ⟨k0, by simp⟩
    · obtain ⟨k, hk⟩ := ih h
      exact ⟨k, List.mem_cons_of_mem _ hk⟩

theorem dictInsert_mem (key : List String) (v : Nat)
    (seen : List (List String × Nat)) (p : List String × Nat)
    (hp : p ∈ dictInsert key v seen) : p ∈ seen ∨ p.2 = v := by
  induction seen with
  | nil =>
    rcases List.mem_singleton.mp hp with rfl
    exact Or.inr rfl
  | cons q rest ih =>
    obtain ⟨k0, w0⟩ := q
    rw [dictInsert] at hp
    split at hp
    · rcases List.mem_cons.mp hp with rfl | hmem
      · exact Or.inr rfl
      · exact Or.inl (List.mem_cons_of_mem _ hmem)
    · rcases List.mem_cons.mp hp with rfl | hmem
      · exact Or.inl (List.mem_cons_self _ _)
      · rcases ih hmem with hm | hv
        · exact Or.inl (List.mem_cons_of_mem _ hm)
        · exact Or.inr hv

theorem getElem?_append_self (l : List α) (x : α) :
    (l ++ [x])[l.length]? = some x := by
  induction l with
  | nil => rfl
  | cons z zs ih =>
    simp only [List.cons_append, List.length_cons, List.getElem?_cons_succ]
    exact ih

theorem getElem?_append_of_some (l l' : List α) (i : Nat) (x : α)
    (h : l[i]? = some x) : (l ++ l')[i]? = some x := by
  induction l generalizing i with
  | nil => simp at h
  | cons z zs ih =>
    cases i with
    | zero => simpa using h
    | succ i' =>
      simp only [List.getElem?_cons_succ] at h
      simp only [List.cons_append, List.getElem?_cons_succ]
      exact ih i' h

/-- Filter invariant of the deduplication loop: items with an empty
significant-word set pass through unchanged (merge targets always have a
nonempty significant-word set, and merging does not change topics). -/
theorem dedupLoop_filter_emptySig :
    ∀ (rest : List ReportItem) (seen : List (List String × Nat))
      (uniq : List ReportItem),
    (∀ p ∈ seen, ∃ it : ReportItem, uniq[p.2]? = some it ∧ sigWords it.topic ≠ []) →
    (dedupLoop rest seen uniq).filter (fun i => (sigWords i.topic).isEmpty) =
      uniq.filter (fun i => (sigWords i.topic).isEmpty) ++
      rest.filter (fun i => (sigWords i.topic).isEmpty) := by
  intro rest
  induction rest with
  | nil => intro seen uniq _; simp [dedupLoop]
  | cons item rest' ih =>
    intro seen uniq hinv
    by_cases hkw : sigWords item.topic = []
    · have hstep : dedupLoop (item :: rest') seen uniq =
          dedupLoop rest' seen (uniq ++ [item]) := by
        rw [dedupLoop, if_pos hkw]
      rw [hstep, ih seen (uniq ++ [item]) ?inv]
      case inv =>
        intro p hp
        obtain ⟨it, hit, hne⟩ := hinv p hp
        exact ⟨it, getElem?_append_of_some uniq [item] p.2 it hit, hne⟩
      rw [List.filter_append, List.filter_cons]
      have : (sigWords item.topic).isEmpty = true := by
        rw [hkw]; rfl
      simp [this]
    · have hitemF : (sigWords item.topic).isEmpty = false := by
        cases hkwl : sigWords item.topic with
        | nil => exact absurd hkwl hkw
        | cons a t => rfl
      cases hfd : findDup (sigWords item.topic) seen with
      | some i =>
        have hstep : dedupLoop (item :: rest') seen uniq =
            dedupLoop rest' seen (modifyAt i (extendSources item.sources) uniq) := by
          rw [dedupLoop, if_neg hkw, hfd]
        obtain ⟨k, hk⟩ := findDup_mem _ seen i hfd
        obtain ⟨it, hit, hne⟩ := hinv (k, i) hk
        have hitF : (sigWords it.topic).isEmpty = false := by
          cases hl : sigWords it.topic with
          | nil => exact absurd hl hne
          | cons a t => rfl
        rw [hstep, ih seen (modifyAt i (extendSources item.sources) uniq) ?minv]
        case minv =>
          intro p hp
          obtain ⟨it', hit', hne'⟩ := hinv p hp
          rw [modifyAt_getElem?]
          by_cases he : i = p.2
          · rw [if_pos he, ← he, hit]
            exact ⟨extendSources item.sources it, rfl, hne⟩
          · rw [if_neg he]
            exact ⟨it', hit', hne'⟩
        rw [modifyAt_filter_of_false _ i _ uniq it hit hitF hitF]
        rw [List.filter_cons]
        simp [hitemF]
      | none =>
        have hstep : dedupLoop (item :: rest') seen uniq =
            dedupLoop rest' (dictInsert (sigWords item.topic) uniq.length seen)
              (uniq ++ [item]) := by
          rw [dedupLoop, if_neg hkw, hfd]
        rw [hstep, ih _ (uniq ++ [item]) ?ninv]
        case ninv =>
          intro p hp
          rcases dictInsert_mem _ _ seen p hp with hmem | hv
          · obtain ⟨it, hit, hne⟩ := hinv p hmem
            exact ⟨it, getElem?_append_of_some uniq [item] p.2 it hit, hne⟩
          · refine ⟨item, ?_, hkw⟩
            rw [hv]
            exact getElem?_append_self uniq item
        rw [List.filter_append, List.filter_cons, List.filter_cons]
        simp [hitemF]

/-- C9. Items whose significant-word set is empty are never merged: the
deduplicator's output restricted to such items equals the (stably
priority-sorted) input restricted to them, each item passing through
unchanged; in particular every such input item is present, as-is, in the
output. -/
theorem c9_empty_sig_preserved (l : List ReportItem) :
    (deduplicateItems l).filter (fun i => (sigWords i.topic).isEmpty) =
      (pySortBy (fun a b => decide (priorityRank a.priority < priorityRank b.priority))
        l).filter (fun i => (sigWords i.topic).isEmpty) ∧
    ∀ x ∈ l, sigWords x.topic = [] → x ∈ deduplicateItems l := by
  have hmain := dedupLoop_filter_emptySig
    (pySortBy (fun a b => decide (priorityRank a.priority < priorityRank b.priority)) l)
    [] [] (by intro p hp; simp at hp)
  constructor
  · simpa [deduplicateItems] using hmain
  · intro x hx hsig
    have hxs : x ∈ pySortBy
        (fun a b => decide (priorityRank a.priority < priorityRank b.priority)) l :=
      (pySortBy_perm _ l).mem_iff.mpr hx
    have hxe : (sigWords x.topic).isEmpty = true := by rw [hsig]; rfl
    have hxf : x ∈ (pySortBy
        (fun a b => decide (priorityRank a.priority < priorityRank b.priority))
        l).filter (fun i => (sigWords i.topic).isEmpty) :=
      List.mem_filter.mpr ⟨hxs, hxe⟩
    have hxd : x ∈ (deduplicateItems l).filter
        (fun i => (sigWords i.topic).isEmpty) := by
      rw [show (deduplicateItems l).filter (fun i => (sigWords i.topic).isEmpty) =
        (pySortBy (fun a b => decide (priorityRank a.priority < priorityRank b.priority))
          l).filter (fun i => (sigWords i.topic).isEmpty) by
          simpa [deduplicateItems] using hmain]
      exact hxf
    exact List.mem_of_mem_filter hxd

/-- Item with an empty significant-word set ("ai" and "to" are stopwords,
used by the C9 witness). -/
def emptyTopicItem : ReportItem :=
  { topic := "ai to", tags := [], priority := "low", summary := "",
    sources := [namedSrc ("Src E")] }

/-- C9 (witness). The preservation theorem applied to a concrete pair of
items. -/
theorem c9_empty_sig_preserved_witness :
    emptyTopicItem ∈ deduplicateItems [cxKeptItem, emptyTopicItem] :=
  (c9_empty_sig_preserved [cxKeptItem, emptyTopicItem]).2 emptyTopicItem
    (by decide) (by decide)

/-- Relation of claim C10's amended statement: `x` agrees with `j` on
every field except that its source list extends `j`'s. -/
def coreExtends (x j : ReportItem) : Prop :=
  x.topic = j.topic ∧ x.tags = j.tags ∧ x.priority = j.priority ∧
  x.summary = j.summary ∧ x.category = j.category ∧
  x.hasPrompt = j.hasPrompt ∧ x.hasVideo = j.hasVideo ∧
  x.hasCompanyNews = j.hasCompanyNews ∧
  ∃ extra, x.sources = j.sources ++ extra

theorem coreExtends_refl (x : ReportItem) : coreExtends x x :=
  ⟨rfl, rfl, rfl, rfl, rfl, rfl, rfl, rfl, [], (List.append_nil _).symm⟩

theorem coreExtends_extend (s : List ReportSource) (x j : ReportItem)
    (h : coreExtends x j) : coreExtends (extendSources s x) j := by
  obtain ⟨h1, h2, h3, h4, h5, h6, h7, h8, e, he⟩ := h
  exact ⟨h1, h2, h3, h4, h5, h6, h7, h8, e ++ s, by
    simp [extendSources, he, List.append_assoc]⟩

/-- Conservation of source records by the deduplication loop: the sources
of the output are a permutation of the accumulated sources plus those of
the remaining items. -/
theorem dedupLoop_sources_perm :
    ∀ (rest : List ReportItem) (seen : List (List String × Nat))
      (uniq : List ReportItem),
    (∀ p ∈ seen, p.2 < uniq.length) →
    List.Perm ((dedupLoop rest seen uniq).flatMap (fun i => i.sources))
      (uniq.flatMap (fun i => i.sources) ++ rest.flatMap (fun i => i.sources)) := by
  intro rest
  induction rest with
  | nil => intro seen uniq _; simp [dedupLoop]
  | cons item rest' ih =>
    intro seen uniq hinv
    by_cases hkw : sigWords item.topic = []
    · have hstep : dedupLoop (item :: rest') seen uniq =
          dedupLoop rest' seen (uniq ++ [item]) := by
        rw [dedupLoop, if_pos hkw]
      rw [hstep]
      have := ih seen (uniq ++ [item])
        (fun p hp => lt_of_lt_of_le (hinv p hp) (by simp))
      refine this.trans ?_
      rw [List.flatMap_append, List.flatMap_cons]
      simp [List.append_assoc]
    · cases hfd : findDup (sigWords item.topic) seen with
      | some i =>
        have hstep : dedupLoop (item :: rest') seen uniq =
            dedupLoop rest' seen (modifyAt i (extendSources item.sources) uniq) := by
          rw [dedupLoop, if_neg hkw, hfd]
        rw [hstep]
        obtain ⟨k, hk⟩ := findDup_mem _ seen i hfd
        have hilt : i < uniq.length := hinv (k, i) hk
        have hperm := modifyAt_flatMap_perm (fun i => i.sources)
          (extendSources item.sources) item.sources (fun x => rfl) i uniq hilt
        have hrec := ih seen (modifyAt i (extendSources item.sources) uniq)
          (fun p hp => by rw [modifyAt_length]; exact hinv p hp)
        refine hrec.trans ?_
        refine (List.Perm.append_right _ hperm).trans ?_
        rw [List.flatMap_cons, List.append_assoc]
      | none =>
        have hstep : dedupLoop (item :: rest') seen uniq =
            dedupLoop rest' (dictInsert (sigWords item.topic) uniq.length seen)
              (uniq ++ [item]) := by
          rw [dedupLoop, if_neg hkw, hfd]
        rw [hstep]
        have hbound : ∀ p ∈ dictInsert (sigWords item.topic) uniq.length seen,
            p.2 < (uniq ++ [item]).length := by
          intro p hp
          rcases dictInsert_mem _ _ seen p hp with hmem | hv
          · exact lt_of_lt_of_le (hinv p hmem) (by simp)
          · rw [hv]; simp
        have := ih _ (uniq ++ [item]) hbound
        refine this.trans ?_
        rw [List.flatMap_append, List.flatMap_cons]
        simp [List.append_assoc]

/-- Length bound of the deduplication loop. -/
theorem dedupLoop_length :
    ∀ (rest : List ReportItem) (seen : List (List String × Nat))
      (uniq : List ReportItem),
    (dedupLoop rest seen uniq).length ≤ uniq.length + rest.length := by
  intro rest
  induction rest with
  | nil => intro seen uniq; simp [dedupLoop]
  | cons item rest' ih =>
    intro seen uniq
    by_cases hkw : sigWords item.topic = []
    · rw [dedupLoop, if_pos hkw]
      have := ih seen (uniq ++ [item])
      simp only [List.length_append, List.length_cons, List.length_nil] at this ⊢
      omega
    · cases hfd : findDup (sigWords item.topic) seen with
      | some i =>
        rw [dedupLoop, if_neg hkw, hfd]
        have := ih seen (modifyAt i (extendSources item.sources) uniq)
        rw [modifyAt_length] at this
        simp only [List.length_cons]
        omega
      | none =>
        rw [dedupLoop, if_neg hkw, hfd]
        have := ih (dictInsert (sigWords item.topic) uniq.length seen) (uniq ++ [item])
        simp only [List.length_append, List.length_cons, List.length_nil] at this ⊢
        omega

/-- Core preservation of the deduplication loop: every output item is an
input (or accumulated) item with its sources extended. -/
theorem dedupLoop_core (P : ReportItem → Prop) :
    ∀ (rest : List ReportItem) (seen : List (List String × Nat))
      (uniq : List ReportItem),
    (∀ x ∈ uniq, ∃ j, P j ∧ coreExtends x j) →
    (∀ y ∈ rest, P y) →
    ∀ x ∈ dedupLoop rest seen uniq, ∃ j, P j ∧ coreExtends x j := by
  intro rest
  induction rest with
  | nil =>
    intro seen uniq huniq _ x hx
    exact huniq x hx
  | cons item rest' ih =>
    intro seen uniq huniq hrest x hx
    have hitem : P item := hrest item (List.mem_cons_self _ _)
    have hrest' : ∀ y ∈ rest', P y :=
      fun y hy => hrest y (List.mem_cons_of_mem _ hy)
    by_cases hkw : sigWords item.topic = []
    · rw [dedupLoop, if_pos hkw] at hx
      refine ih seen (uniq ++ [item]) ?_ hrest' x hx
      intro z hz
      rcases List.mem_append.mp hz with hm | hm
      · exact huniq z hm
      · rcases List.mem_singleton.mp hm with rfl
        exact ⟨z, hitem, coreExtends_refl z⟩
    · cases hfd : findDup (sigWords item.topic) seen with
      | some i =>
        rw [dedupLoop, if_neg hkw, hfd] at hx
        refine ih seen (modifyAt i (extendSources item.sources) uniq) ?_ hrest' x hx
        intro z hz
        rcases modifyAt_mem i _ uniq z hz with hm | ⟨y, hy, he⟩
        · exact huniq z hm
        · obtain ⟨j, hj, hcore⟩ := huniq y hy
          exact ⟨j, hj, he ▸ coreExtends_extend item.sources y j hcore⟩
      | none =>
        rw [dedupLoop, if_neg hkw, hfd] at hx
        refine ih _ (uniq ++ [item]) ?_ hrest' x hx
        intro z hz
        rcases List.mem_append.mp hz with hm | hm
        · exact huniq z hm
        · rcases List.mem_singleton.mp hm with rfl
          exact ⟨z, hitem, coreExtends_refl z⟩

/-- First item of the C10 counterexample. -/
def c10ItemA : ReportItem :=
  { topic := "quantum chips ship widely", tags := [], priority := "high",
    summary := "", sources := [namedSrc ("Out A")] }

/-- Second item of the C10 counterexample, merged into the first. -/
def c10ItemB : ReportItem :=
  { topic := "quantum chips ship widely soon", tags := [], priority := "high",
    summary := "", sources := [namedSrc ("Out B")] }

/-- C10. The claim says every output item is one of the input items. A
merge extends the kept item's source list, so the merged output item is
(as a value) not an input item: here two near-duplicate items with
different sources merge into an item carrying both sources, which equals
neither input. The conservation and length parts of the claim do hold
(see the amended theorem). -/
theorem c10_counterexample :
    deduplicateItems [c10ItemA, c10ItemB] =
      [{ c10ItemA with sources := c10ItemA.sources ++ c10ItemB.sources }] ∧
    ({ c10ItemA with sources := c10ItemA.sources ++ c10ItemB.sources } :
      ReportItem) ∉ [c10ItemA, c10ItemB] := by
  decide

/-- C10 (amended). Deduplication conserves provenance: the multiset of
source records across the output equals that across the input (a
permutation), the output is no longer than the input, and every output
item agrees with some input item on every field except that its source
list extends the input item's list (by the sources absorbed from its
duplicates). -/
theorem c10_provenance (l : List ReportItem) :
    List.Perm ((deduplicateItems l).flatMap (fun i => i.sources))
      (l.flatMap (fun i => i.sources)) ∧
    (deduplicateItems l).length ≤ l.length ∧
    ∀ x ∈ deduplicateItems l, ∃ j, j ∈ l ∧ coreExtends x j := by
  refine ⟨?_, ?_, ?_⟩
  · have h1 := dedupLoop_sources_perm
      (pySortBy (fun a b => decide (priorityRank a.priority < priorityRank b.priority)) l)
      [] [] (by intro p hp; simp at hp)
    have h2 : List.Perm
        ((pySortBy (fun a b => decide (priorityRank a.priority < priorityRank b.priority))
          l).flatMap (fun i => i.sources)) (l.flatMap (fun i => i.sources)) :=
      List.Perm.flatMap_right _ (pySortBy_perm _ l)
    have h3 : deduplicateItems l = dedupLoop
        (pySortBy (fun a b => decide (priorityRank a.priority < priorityRank b.priority)) l)
        [] [] := rfl
    rw [h3]
    simp only [List.flatMap_nil, List.nil_append] at h1
    exact h1.trans h2
  · have h1 := dedupLoop_length
      (pySortBy (fun a b => decide (priorityRank a.priority < priorityRank b.priority)) l)
      [] []
    have h2 : (pySortBy
        (fun a b => decide (priorityRank a.priority < priorityRank b.priority))
        l).length = l.length := (pySortBy_perm _ l).length_eq
    simpa [deduplicateItems, h2] using h1
  · intro x hx
    have h1 := dedupLoop_core (fun j => j ∈ l)
      (pySortBy (fun a b => decide (priorityRank a.priority < priorityRank b.priority)) l)
      [] [] (by intro z hz; simp at hz)
      (fun y hy => (pySortBy_perm _ l).mem_iff.mp hy) x hx
    exact h1

/-- C10 (witness). The provenance theorem applied to the concrete
counterexample pair. -/
theorem c10_provenance_witness :
    ∃ j, j ∈ [c10ItemA, c10ItemB] ∧
      coreExtends { c10ItemA with sources := c10ItemA.sources ++ c10ItemB.sources } j :=
  (c10_provenance [c10ItemA, c10ItemB]).2.2
    { c10ItemA with sources := c10ItemA.sources ++ c10ItemB.sources } (by decide)

/-! Lemmas for claim C6 (fallback guarantee of `analyze`). -/

theorem summarizeFinish_ne (result : List Char) (p : String) :
    summarizeFinish result p ≠ "" := by
  unfold summarizeFinish
  split
  · exact strMk_ne_empty _ (by simp)
  · split
    · decide
    · rename_i hres
      exact strMk_ne_empty _ hres

theorem summarizeText_ne (t : List Char) (p : String) : summarizeText t p ≠ "" :=
  summarizeFinish_ne _ _

theorem summarize_ne (m : GmailMessage) (p : String) : summarize m p ≠ "" :=
  summarizeText_ne _ _

theorem normalizeTopic_ne (s : String) : normalizeTopic s ≠ "" := by
  simp only [normalizeTopic]
  split
  · decide
  · rename_i h
    exact strMk_ne_empty _ h

theorem buildItem_topic (t : String) (msgs : List GmailMessage) :
    (buildItem t msgs).topic = t := rfl

theorem buildItem_summary (t : String) (msgs : List GmailMessage) :
    ∃ m p, (buildItem t msgs).summary = summarize m p := by
  simp only [buildItem]
  exact ⟨_, _, rfl⟩

theorem groupByTopic_single (m : GmailMessage) :
    groupByTopic [m] = [(normalizeTopic m.subject, [m])] := by
  simp [groupByTopic, assocAppend, pySortBy, pyInsert]

theorem dedup_single (it : ReportItem) : deduplicateItems [it] = [it] := by
  simp only [deduplicateItems, pySortBy, pyInsert]
  by_cases hkw : sigWords it.topic = [] <;>
    simp [dedupLoop, hkw, findDup, dictInsert]

theorem assocAppend_ne_nil (key : String) (m : GmailMessage)
    (acc : List (String × List GmailMessage)) : assocAppend key m acc ≠ [] := by
  cases acc with
  | nil => simp [assocAppend]
  | cons q rest =>
    obtain ⟨k, v⟩ := q
    simp only [assocAppend]
    split <;> simp

theorem foldl_group_ne_nil :
    ∀ (msgs : List GmailMessage) (acc : List (String × List GmailMessage)),
    acc ≠ [] →
    msgs.foldl (fun a m => assocAppend (normalizeTopic m.subject) m a) acc ≠ [] := by
  intro msgs
  induction msgs with
  | nil => intro acc h; simpa using h
  | cons m rest ih =>
    intro acc h
    rw [List.foldl_cons]
    exact ih _ (assocAppend_ne_nil _ _ _)

theorem groupByTopic_ne_nil (msgs : List GmailMessage) (h : msgs ≠ []) :
    groupByTopic msgs ≠ [] := by
  cases msgs with
  | nil => exact absurd rfl h
  | cons m rest =>
    simp only [groupByTopic, List.foldl_cons]
    intro he
    rw [List.map_eq_nil_iff] at he
    exact foldl_group_ne_nil rest _ (assocAppend_ne_nil _ _ _) he

theorem dedupLoop_ne_nil :
    ∀ (rest : List ReportItem) (seen : List (List String × Nat))
      (uniq : List ReportItem), uniq ≠ [] → dedupLoop rest seen uniq ≠ [] := by
  intro rest
  induction rest with
  | nil => intro seen uniq h; simpa [dedupLoop] using h
  | cons item rest' ih =>
    intro seen uniq h
    by_cases hkw : sigWords item.topic = []
    · rw [dedupLoop, if_pos hkw]
      exact ih _ _ (by simp)
    · cases hfd : findDup (sigWords item.topic) seen with
      | some i =>
        rw [dedupLoop, if_neg hkw, hfd]
        refine ih _ _ ?_
        intro he
        have hl := modifyAt_length i (extendSources item.sources) uniq
        rw [he] at hl
        exact h (List.length_eq_zero.mp hl.symm)
      | none =>
        rw [dedupLoop, if_neg hkw, hfd]
        exact ih _ _ (by simp)

theorem deduplicateItems_ne_nil (l : List ReportItem) (h : l ≠ []) :
    deduplicateItems l ≠ [] := by
  simp only [deduplicateItems]
  cases hs : pySortBy
      (fun a b => decide (priorityRank a.priority < priorityRank b.priority)) l with
  | nil =>
    have := (pySortBy_perm
      (fun a b => decide (priorityRank a.priority < priorityRank b.priority)) l)
    rw [hs] at this
    exact absurd this.symm.eq_nil h
  | cons x rest =>
    by_cases hkw : sigWords x.topic = []
    · rw [dedupLoop, if_pos hkw]
      exact dedupLoop_ne_nil _ _ _ (by simp)
    · rw [dedupLoop, if_neg hkw]
      have : findDup (sigWords x.topic) [] = none := rfl
      rw [this]
      exact dedupLoop_ne_nil _ _ _ (by simp)

/-- C6. The pipeline has no external extraction capability (analysis is
always the deterministic path): analyzing a single message produces
exactly one item, whose headline (topic) and body (summary) are nonempty;
more generally, a nonempty batch of messages always yields at least one
item. -/
theorem c6_fallback (now : Int) (m : GmailMessage) (flag : Bool) :
    (analyze now [m] flag).items.length = 1 ∧
    (∀ i ∈ (analyze now [m] flag).items, i.topic ≠ "" ∧ i.summary ≠ "") ∧
    (∀ msgs : List GmailMessage, msgs ≠ [] → (analyze now msgs flag).items ≠ []) := by
  have hitems : (analyze now [m] flag).items =
      deduplicateItems [buildItem (normalizeTopic m.subject) [m]] := by
    simp only [analyze, groupByTopic_single, List.map_cons, List.map_nil]
  rw [dedup_single] at hitems
  refine ⟨by rw [hitems]; rfl, ?_, ?_⟩
  · intro i hi
    rw [hitems] at hi
    rcases List.mem_singleton.mp hi with rfl
    refine ⟨?_, ?_⟩
    · rw [buildItem_topic]
      exact normalizeTopic_ne _
    · obtain ⟨m', p', he⟩ := buildItem_summary (normalizeTopic m.subject) [m]
      rw [he]
      exact summarize_ne m' p'
  · intro msgs hmsgs
    have h2 : (analyze now msgs flag).items =
        deduplicateItems ((groupByTopic msgs).map (fun p => buildItem p.1 p.2)) := rfl
    rw [h2]
    apply deduplicateItems_ne_nil
    intro he
    rw [List.map_eq_nil_iff] at he
    exact groupByTopic_ne_nil msgs hmsgs he

/-- Message used by the C6 witness. -/
def demoMsg : GmailMessage :=
  { messageId := "w", subject := "zeta report", sender := "S <s@x>",
    receivedAt := 1, snippet := "tiny", bodyText := "", bodyHtml := "",
    link := "", links := [] }

/-- C6 (witness). The fallback theorem applied to a concrete message. -/
theorem c6_fallback_witness :
    (analyze 0 [demoMsg] true).items.length = 1 ∧
    (buildItem (normalizeTopic demoMsg.subject) [demoMsg]).topic ≠ "" ∧
    (analyze 0 [demoMsg] true).items ≠ [] :=
  ⟨(c6_fallback 0 demoMsg true).1,
   ((c6_fallback 0 demoMsg true).2.1
     (buildItem (normalizeTopic demoMsg.subject) [demoMsg]) (by decide)).1,
   (c6_fallback 0 demoMsg true).2.2 [demoMsg] (by decide)⟩

/-- C8 (amended). Re-normalizing normalized text never grows it (a second
pass can only remove further artifacts created by the first, as the
counterexample shows), and normalized text is stable under whitespace
stripping. -/
theorem c8_renorm_shrinks (t : List Char) :
    (cleanText (cleanText t)).length ≤ (cleanText t).length ∧
    pyStrip (cleanText t) = cleanText t := by
  constructor
  · exact cleanText_length (cleanText t)
  · have h : cleanText t = pyStrip (pySub emptyBracketMatch []
        (pySub emptyParenMatch [] (pySub wsPunctWsMatch ([' '])
        (pySub wsMatch ([' ']) (pySub crlfTabMatch ([' '])
        (pySub bulletsMatch [] (pySub pipeAdvertiseMatch []
        (pySub referTldrMatch [] (pySub captionMatch []
        (pySub wwwMatch [] (pySub urlMatch [] (pySub socialMatch []
        (pySub ctaMatch [] (pySub (litDotMatch (("this week").data)) []
        (pySub (litDotMatch (("today we").data)) [] (pySub inThisMatch []
        (pySub hereWhatMatch [] (pySub (litDotMatch (("hey").data)) []
        (pySub (litDotMatch (("hello").data)) []
        (pySub (litDotMatch (("hi there").data)) [] (pySub goodTimeMatch []
        (pySub happyDayMatch [] (pySub welcomeNameMatch []
        (pySub (litDotMatch (("welcome back").data)) []
        (pySub imgPlaceholderMatch [] (pySub followImageMatch []
        (pySub viewImageMatch [] (pySub zwMatch [] t)))))))))))))))))))))))))))) := rfl
    rw [h, pyStrip_idem]

end SA86
